import Mathlib

/-!
Shallow embedding of the w3c/attribution reference backend (backend.ts) and
verification of the frozen claims about it.

Modelling conventions:
* JavaScript numbers are embedded as rationals (`ℚ`); the validated integral
  quantities that the code stores after an `Number.isInteger` check are kept
  as `ℤ`/`ℕ`.
* `Temporal.Instant` and `Temporal.Duration` are embedded as rationals
  counting seconds.
* Site canonicalization (`psl.get`) and URL normalization are external
  collaborators of the core (non-goals of the design); `parseSite` and
  `parseAggregationServiceURL` are embedded as the identity on strings.
* JavaScript `Set` objects are embedded as insertion-ordered duplicate-free
  lists; `Set.add` appends when the element is absent.
* Exceptions are embedded with an explicit error type; stateful operations
  return the (possibly partially mutated) state next to the result, so that
  a throw that happens after a mutation keeps the mutation, as in the source.
* The delegate callbacks `now()` and `random()` are embedded by passing the
  instant of the call and a stream of random draws (with an explicit draw
  counter) to each operation.
* `MAX_CONVERSION_EPSILON` and the option defaults live in `index.ts`, which
  is not part of the sources; the constant is therefore carried as a field of
  the embedded delegate, and option records carry all fields explicitly
  (destructuring defaults only fill absent fields).
-/

namespace Attribution

deriving instance DecidableEq for Except

attribute [local semireducible] Rat.add Rat.sub Rat.mul Rat.inv

/-- Error kinds thrown by the backend: `RangeError`, `ReferenceError`,
`DOMException SyntaxError` and `DOMException InvalidStateError`. -/
inductive Err where
  | rangeError
  | referenceError
  | syntaxError
  | invalidStateError
deriving Repr, DecidableEq

/-- Result of a fallible computation. -/
abbrev Res (α : Type) := Except Err α

/-- A rational is integral when its denominator is one; this embeds the
JavaScript `Number.isInteger` test on our rational model of numbers. -/
def RatIsInt (q : ℚ) : Prop := q.den = 1

instance (q : ℚ) : Decidable (RatIsInt q) := by
  unfold RatIsInt; infer_instance

/-- Embedding of `Math.floor` on numbers. -/
def jsFloor (q : ℚ) : ℤ := ⌊q⌋

/-- Embedding of `Math.ceil` on numbers. -/
def jsCeil (q : ℚ) : ℤ := ⌈q⌉

/-- Embedding of `Math.round`: round half toward positive infinity. -/
def jsRound (q : ℚ) : ℤ := ⌊q + 1/2⌋

/-- Embedding of `Temporal.Instant.compare`. -/
def instantCompare (a b : ℚ) : ℤ :=
  if a < b then -1 else if b < a then 1 else 0

/-- Embedding of the helper `days`: a duration of `n` days counted in
seconds (the source builds it from `hours: n * 24`). -/
def days (n : ℚ) : ℚ := n * 86400

/-- Embedding of `checkRandom`: a draw must lie in the half-open unit
interval, otherwise a `RangeError` is thrown. -/
def checkRandom (p : ℚ) : Res ℚ :=
  if 0 ≤ p ∧ p < 1 then .ok p else .error .rangeError

/-- One step of the pairwise randomized rounding loop of
`fairlyAllocateCredit`. The state is the working vector, the current leader
index `idx1` and the number of random draws consumed so far. -/
def facStep (rand : ℕ → ℚ) (s : List ℚ × ℕ × ℕ) (n : ℕ) :
    Res (List ℚ × ℕ × ℕ) :=
  let ws := s.1
  let idx1 := s.2.1
  let ctr := s.2.2
  let w1 := ws.getD idx1 0
  let w2 := ws.getD n 0
  let frac1 := w1 - (jsFloor w1 : ℚ)
  let frac2 := w2 - (jsFloor w2 : ℚ)
  if frac1 = 0 ∧ frac2 = 0 then
    .ok (ws, idx1, ctr)
  else
    let incr1 := if frac1 + frac2 > 1 then 1 - frac1 else -frac1
    let incr2 := if frac1 + frac2 > 1 then 1 - frac2 else -frac2
    let p1 := incr2 / (incr1 + incr2)
    match checkRandom (rand ctr) with
    | .error e => .error e
    | .ok r =>
      if r < p1 then
        -- incr = incr1 and the swap makes the old leader the target idx2
        .ok ((ws.set idx1 (w1 + incr1)).set n (w2 - incr1), n, ctr + 1)
      else
        .ok ((ws.set n (w2 + incr2)).set idx1 (w1 - incr2), idx1, ctr + 1)

/-- Embedding of the exported `fairlyAllocateCredit`. The random generator
is a stream together with the index of the next draw; the function returns
the updated draw index next to the result. -/
def fairlyAllocateCredit (credit : List ℚ) (value : ℚ) (rand : ℕ → ℚ)
    (k : ℕ) : Res (List ℤ) × ℕ :=
  let sumCredit := credit.foldl (· + ·) 0
  let roundedCredit := credit.map (fun item => value * item / sumCredit)
  match (List.range' 1 (roundedCredit.length - 1)).foldlM
      (facStep rand) (roundedCredit, 0, k) with
  | .error e => (.error e, k)
  | .ok (ws, _, ctr) => (.ok (ws.map jsRound), ctr)

/-- Embedding of the `Impression` record. The numeric fields that the code
stores only after an `Number.isInteger` validation are kept as integers. -/
structure Impression where
  matchValue : ℤ
  impressionSite : String
  intermediarySite : Option String
  conversionSites : List String
  conversionCallers : List String
  timestamp : ℚ
  lifetime : ℚ
  histogramIndex : ℤ
  priority : ℤ
deriving Repr, DecidableEq

/-- Embedding of `PrivacyBudgetStoreEntry` (a `PrivacyBudgetKey` together
with the remaining budget value in micro-epsilons). -/
structure PrivacyBudgetStoreEntry where
  epoch : ℤ
  site : String
  value : ℚ
deriving Repr, DecidableEq

/-- Embedding of the configuration part of the `Delegate` interface.
Aggregation services are represented by their (already normalized) URL keys.
The compile-time constant `MAX_CONVERSION_EPSILON` of `index.ts` is carried
here as a field because `index.ts` is not among the sources. -/
structure Delegate where
  aggregationServices : List String
  maxConversionSitesPerImpression : ℚ
  maxConversionCallersPerImpression : ℚ
  maxCreditSize : ℚ
  maxLookbackDays : ℚ
  maxHistogramSize : ℚ
  privacyBudgetMicroEpsilons : ℚ
  privacyBudgetEpoch : ℚ
  maxConversionEpsilon : ℚ
deriving Repr, DecidableEq

/-- Embedding of the mutable state of the `Backend` class. The delegate
callbacks `now()` and `random()` are passed to each operation instead. -/
structure Backend where
  enabled : Bool
  impressions : List Impression
  epochStartStore : List (String × ℚ)
  privacyBudgetStore : List PrivacyBudgetStoreEntry
  lastBrowsingHistoryClear : Option ℚ
deriving Repr, DecidableEq

/-- Embedding of `AttributionImpressionOptions` with the defaults of
`index.ts` already filled in (destructuring defaults only replace absent
fields). -/
structure ImpressionOptions where
  histogramIndex : ℚ
  matchValue : ℚ
  conversionSites : List String
  conversionCallers : List String
  lifetimeDays : ℚ
  priority : ℚ
deriving Repr, DecidableEq

/-- Embedding of `AttributionConversionOptions` with defaults filled in. -/
structure ConversionOptions where
  aggregationService : String
  epsilon : ℚ
  histogramSize : ℚ
  impressionSites : List String
  impressionCallers : List String
  lookbackDays : ℚ
  credit : List ℚ
  maxValue : ℚ
  matchValues : List ℚ
  value : ℚ
deriving Repr, DecidableEq

/-- Embedding of `ValidatedConversionOptions`; the validated aggregation
service is kept as its URL key, `histogramSize` as a natural number and
`value` as an integer, reflecting the checks the validator performed. -/
structure ValidatedConversionOptions where
  aggregationService : String
  epsilon : ℚ
  histogramSize : ℕ
  lookback : ℚ
  matchValues : List ℤ
  impressionSites : List String
  impressionCallers : List String
  credit : List ℚ
  value : ℤ
  maxValue : ℚ
deriving Repr, DecidableEq

/-- Embedding of `parseSite`: eTLD+1 canonicalization is an external
collaborator of the core, so it is modelled as the identity. -/
def parseSite (s : String) : String := s

/-- Embedding of `parseAggregationServiceURL`: URL parsing and
normalization are external collaborators, so it is modelled as the
identity. -/
def parseAggregationServiceURL (s : String) : String := s

/-- Insertion into a JavaScript `Set` modelled as an insertion-ordered
duplicate-free list. -/
def setAdd (acc : List String) (s : String) : List String :=
  if s ∈ acc then acc else acc ++ [s]

/-- Embedding of `parseSites`: parse each site and collect them in a set. -/
def parseSites (l : List String) : List String :=
  l.foldl (fun acc s => setAdd acc (parseSite s)) []

/-- Embedding of `allZeroHistogram`. -/
def allZeroHistogram (size : ℕ) : List ℤ := List.replicate size 0

/-- Lookup in the per-site epoch start store (`Map.get`). -/
def lookupStart (store : List (String × ℚ)) (site : String) : Option ℚ :=
  (store.find? (fun e => e.1 = site)).map (·.2)

/-- Lookup of the first matching privacy budget entry
(`#privacyBudgetStore.find`), returning its remaining value. -/
def budgetFind (store : List PrivacyBudgetStoreEntry) (site : String)
    (epoch : ℤ) : Option ℚ :=
  (store.find? (fun e => e.epoch = epoch ∧ e.site = site)).map (·.value)

/-- Update the value of the first budget entry matching the key, embedding
an in-place mutation of the entry object found by `find`. -/
def budgetSetFirst (store : List PrivacyBudgetStoreEntry) (site : String)
    (epoch : ℤ) (v : ℚ) : List PrivacyBudgetStoreEntry :=
  match store with
  | [] => []
  | e :: rest =>
    if e.epoch = epoch ∧ e.site = site then { e with value := v } :: rest
    else e :: budgetSetFirst rest site epoch v

/-- Embedding of `#deductPrivacyBudget` acting on the budget store. A
missing entry is first created with the configured budget plus 1000; the
returned boolean is the success flag of the deduction. -/
def deductPrivacyBudget (d : Delegate) (site : String) (epoch : ℤ)
    (epsilon value maxValue : ℚ) (l1Norm : Option ℚ)
    (store : List PrivacyBudgetStoreEntry) :
    Bool × List PrivacyBudgetStoreEntry :=
  let remaining := (budgetFind store site epoch).getD
    (d.privacyBudgetMicroEpsilons + 1000)
  let store1 :=
    if (budgetFind store site epoch).isSome then store
    else store ++ [⟨epoch, site, d.privacyBudgetMicroEpsilons + 1000⟩]
  let sensitivity := l1Norm.getD (2 * value)
  let noiseScale := 2 * maxValue / epsilon
  let deductionFp := sensitivity / noiseScale
  if deductionFp < 0 ∨ deductionFp > d.maxConversionEpsilon then
    (false, budgetSetFirst store1 site epoch 0)
  else
    let deduction := jsCeil (deductionFp * 1000000)
    if (deduction : ℚ) > remaining then
      (false, budgetSetFirst store1 site epoch 0)
    else
      (true, budgetSetFirst store1 site epoch (remaining - deduction))

/-- Embedding of `#getCurrentEpoch`. When the site has no stored epoch
start, one random draw is consumed to sample the origin, which is then
recorded in the store; the epoch index is the floor of the elapsed time in
epoch periods. -/
def getCurrentEpoch (d : Delegate) (rand : ℕ → ℚ) (site : String) (t : ℚ)
    (st : Backend) (k : ℕ) : Res ℤ × Backend × ℕ :=
  let period := d.privacyBudgetEpoch
  match lookupStart st.epochStartStore site with
  | some start => (.ok (jsFloor ((t - start) / period)), st, k)
  | none =>
    match checkRandom (rand k) with
    | .error e => (.error e, st, k)
    | .ok p =>
      let start := t - p * period
      (.ok (jsFloor ((t - start) / period)),
        { st with epochStartStore := st.epochStartStore ++ [(site, start)] },
        k + 1)

/-- Embedding of `#getStartEpoch`: the epoch index at the far end of the
maximal lookback window, pushed forward past a browsing-history clear by the
two-epoch quarantine. -/
def getStartEpoch (d : Delegate) (rand : ℕ → ℚ) (site : String) (now : ℚ)
    (st : Backend) (k : ℕ) : Res ℤ × Backend × ℕ :=
  match getCurrentEpoch d rand site (now - days d.maxLookbackDays) st k with
  | (.error e, st1, k1) => (.error e, st1, k1)
  | (.ok earliestEpochIndex, st1, k1) =>
    match st1.lastBrowsingHistoryClear with
    | none => (.ok earliestEpochIndex, st1, k1)
    | some clear =>
      match getCurrentEpoch d rand site clear st1 k1 with
      | (.error e, st2, k2) => (.error e, st2, k2)
      | (.ok clearEpoch, st2, k2) =>
        if clearEpoch + 2 > earliestEpochIndex then
          (.ok (clearEpoch + 2), st2, k2)
        else (.ok earliestEpochIndex, st2, k2)

/-- Recursive core of `#commonMatchingLogic`: walk the stored impressions,
skipping each one that fails one of the eight filters, and collect the
matching impressions in storage order. Computing the epoch of an impression
may lazily sample the epoch origin of the converting site. -/
def matchImpressions (d : Delegate) (rand : ℕ → ℚ) (topLevelSite : String)
    (intermediarySite : Option String) (epoch : ℤ) (now : ℚ)
    (vopts : ValidatedConversionOptions) (imps : List Impression)
    (st : Backend) (k : ℕ) : Res (List Impression) × Backend × ℕ :=
  match imps with
  | [] => (.ok [], st, k)
  | imp :: rest =>
    match getCurrentEpoch d rand topLevelSite imp.timestamp st k with
    | (.error e, st1, k1) => (.error e, st1, k1)
    | (.ok impressionEpoch, st1, k1) =>
      let conversionCaller := intermediarySite.getD topLevelSite
      let impressionCaller := imp.intermediarySite.getD imp.impressionSite
      let keep : Bool :=
        impressionEpoch = epoch ∧
        ¬ instantCompare now (imp.timestamp + imp.lifetime) > 0 ∧
        ¬ instantCompare now (imp.timestamp + vopts.lookback) > 0 ∧
        ¬ (imp.conversionSites ≠ [] ∧ topLevelSite ∉ imp.conversionSites) ∧
        ¬ (imp.conversionCallers ≠ [] ∧
            conversionCaller ∉ imp.conversionCallers) ∧
        ¬ (vopts.matchValues ≠ [] ∧ imp.matchValue ∉ vopts.matchValues) ∧
        ¬ (vopts.impressionSites ≠ [] ∧
            imp.impressionSite ∉ vopts.impressionSites) ∧
        ¬ (vopts.impressionCallers ≠ [] ∧
            impressionCaller ∉ vopts.impressionCallers)
      match matchImpressions d rand topLevelSite intermediarySite epoch now
          vopts rest st1 k1 with
      | (.error e, st2, k2) => (.error e, st2, k2)
      | (.ok tail, st2, k2) =>
        (.ok (if keep then imp :: tail else tail), st2, k2)

/-- Embedding of `#commonMatchingLogic` over the current impression store. -/
def commonMatchingLogic (d : Delegate) (rand : ℕ → ℚ) (topLevelSite : String)
    (intermediarySite : Option String) (epoch : ℤ) (now : ℚ)
    (vopts : ValidatedConversionOptions) (st : Backend) (k : ℕ) :
    Res (List Impression) × Backend × ℕ :=
  matchImpressions d rand topLevelSite intermediarySite epoch now vopts
    st.impressions st k

/-- Comparator used by `#fillHistogramWithLastNTouchAttribution`:
descending priority, ties broken by descending timestamp. `le a b` holds
when the comparator of the source returns a non-positive value on (a, b). -/
def impressionLE (a b : Impression) : Bool :=
  b.priority < a.priority ∨ (a.priority = b.priority ∧ b.timestamp ≤ a.timestamp)

/-- Stable insertion of an impression into an already sorted list; inserts
after every element that may precede it. -/
def insertImpression (x : Impression) : List Impression → List Impression
  | [] => [x]
  | y :: ys =>
    if impressionLE y x ∧ ¬ impressionLE x y then y :: insertImpression x ys
    else x :: y :: ys

/-- Stable sort by `impressionLE`, embedding `Array.prototype.toSorted`
(which is a stable sort) with the comparator of the source. -/
def sortImpressions : List Impression → List Impression
  | [] => []
  | x :: xs => insertImpression x (sortImpressions xs)

/-- Histogram filling loop: add the allocated credit of each retained
impression to the slot named by its histogram index. An index outside the
bounds of the array leaves the histogram entries unchanged (in JavaScript a
negative index creates a plain property that is invisible to the array
elements, and the source skips indices at or above the length). -/
def fillLoop : List (Impression × ℤ) → List ℤ → List ℤ
  | [], h => h
  | (imp, c) :: rest, h =>
    if 0 ≤ imp.histogramIndex ∧ imp.histogramIndex < h.length then
      fillLoop rest (h.set imp.histogramIndex.toNat
        (h.getD imp.histogramIndex.toNat 0 + c))
    else fillLoop rest h

/-- Embedding of `#fillHistogramWithLastNTouchAttribution`: sort matched
impressions, keep the N most highly ranked where N is bounded by the credit
vector length, fairly allocate the credit and fill the histogram. -/
def fillHistogramWithLastNTouchAttribution (rand : ℕ → ℚ)
    (matchedImpressions : List Impression) (histogramSize : ℕ) (value : ℤ)
    (credit : List ℚ) (k : ℕ) : Res (List ℤ) × ℕ :=
  if matchedImpressions = [] then (.error .invalidStateError, k)
  else
    let sortedImpressions := sortImpressions matchedImpressions
    let N := min credit.length sortedImpressions.length
    let lastNImpressions := sortedImpressions.take N
    let credit2 := credit.take N
    match fairlyAllocateCredit credit2 (value : ℚ) rand k with
    | (.error e, k1) => (.error e, k1)
    | (.ok normalizedCredit, k1) =>
      (.ok (fillLoop (lastNImpressions.zip normalizedCredit)
        (allZeroHistogram histogramSize)), k1)

/-- Loop of the multi-epoch regime of `#doAttributionAndFillHistogram`:
for each epoch that produced matches, attempt a worst-case budget deduction
and merge the matches into the pool only when the deduction succeeded. -/
def multiEpochLoop (d : Delegate) (rand : ℕ → ℚ) (topLevelSite : String)
    (intermediarySite : Option String) (now : ℚ)
    (vopts : ValidatedConversionOptions) (epochs : List ℤ)
    (acc : List Impression) (st : Backend) (k : ℕ) :
    Res (List Impression) × Backend × ℕ :=
  match epochs with
  | [] => (.ok acc, st, k)
  | epoch :: rest =>
    match commonMatchingLogic d rand topLevelSite intermediarySite epoch now
        vopts st k with
    | (.error e, st1, k1) => (.error e, st1, k1)
    | (.ok imps, st1, k1) =>
      if imps = [] then
        multiEpochLoop d rand topLevelSite intermediarySite now vopts rest
          acc st1 k1
      else
        let r := deductPrivacyBudget d topLevelSite epoch vopts.epsilon
          (vopts.value : ℚ) vopts.maxValue none st1.privacyBudgetStore
        multiEpochLoop d rand topLevelSite intermediarySite now vopts rest
          (if r.1 then acc ++ imps else acc)
          { st1 with privacyBudgetStore := r.2 } k1

/-- The inclusive integer interval of epochs swept by a loop
`for (let epoch = lo; epoch <= hi; ++epoch)`. -/
def epochRange (lo hi : ℤ) : List ℤ :=
  (List.range (hi + 1 - lo).toNat).map (fun n : ℕ => lo + (n : ℤ))

/-- Embedding of `#doAttributionAndFillHistogram`. -/
def doAttributionAndFillHistogram (d : Delegate) (rand : ℕ → ℚ)
    (topLevelSite : String) (intermediarySite : Option String) (now : ℚ)
    (vopts : ValidatedConversionOptions) (st : Backend) (k : ℕ) :
    Res (List ℤ) × Backend × ℕ :=
  match getCurrentEpoch d rand topLevelSite now st k with
  | (.error e, st1, k1) => (.error e, st1, k1)
  | (.ok currentEpoch, st1, k1) =>
  match getStartEpoch d rand topLevelSite now st1 k1 with
  | (.error e, st2, k2) => (.error e, st2, k2)
  | (.ok startEpoch, st2, k2) =>
  match getCurrentEpoch d rand topLevelSite (now - vopts.lookback) st2 k2 with
  | (.error e, st3, k3) => (.error e, st3, k3)
  | (.ok earliestEpoch, st3, k3) =>
  let singleEpoch := currentEpoch = earliestEpoch
  let gather : Res (List Impression) × Backend × ℕ :=
    if singleEpoch then
      commonMatchingLogic d rand topLevelSite intermediarySite currentEpoch
        now vopts st3 k3
    else
      multiEpochLoop d rand topLevelSite intermediarySite now vopts
        (epochRange startEpoch currentEpoch) [] st3 k3
  match gather with
  | (.error e, st4, k4) => (.error e, st4, k4)
  | (.ok matchedImpressions, st4, k4) =>
  if matchedImpressions = [] then
    (.ok (allZeroHistogram vopts.histogramSize), st4, k4)
  else
    match fillHistogramWithLastNTouchAttribution rand matchedImpressions
        vopts.histogramSize vopts.value vopts.credit k4 with
    | (.error e, k5) => (.error e, st4, k5)
    | (.ok histogram, k5) =>
      if singleEpoch then
        let l1Norm := histogram.sum
        if l1Norm > vopts.value then (.error .invalidStateError, st4, k5)
        else
          let r := deductPrivacyBudget d topLevelSite currentEpoch
            vopts.epsilon (vopts.value : ℚ) vopts.maxValue
            (some (l1Norm : ℚ)) st4.privacyBudgetStore
          (.ok (if r.1 then histogram else allZeroHistogram vopts.histogramSize),
            { st4 with privacyBudgetStore := r.2 }, k5)
      else (.ok histogram, st4, k5)

/-- Embedding of `#validateConversionOptions`. The checks are performed in
source order; note that the maxValue check of the source tests
`Number.isInteger(value)` (not `maxValue`), and the credit positivity loop
tests `Number.isFinite(value)`, which on rationals always holds. -/
def validateConversionOptions (d : Delegate) (o : ConversionOptions) :
    Res ValidatedConversionOptions :=
  if parseAggregationServiceURL o.aggregationService ∉ d.aggregationServices
    then .error .referenceError
  else if o.epsilon ≤ 0 ∨ o.epsilon > d.maxConversionEpsilon then
    .error .rangeError
  else if o.histogramSize < 1 ∨ o.histogramSize > d.maxHistogramSize ∨
      ¬ RatIsInt o.histogramSize then .error .rangeError
  else if o.value ≤ 0 ∨ ¬ RatIsInt o.value then .error .rangeError
  else if o.maxValue ≤ 0 ∨ ¬ RatIsInt o.value then .error .rangeError
  else if o.value > o.maxValue then .error .rangeError
  else if o.credit.length = 0 ∨ (o.credit.length : ℚ) > d.maxCreditSize then
    .error .rangeError
  else if o.credit.any (fun c => c ≤ 0) then .error .rangeError
  else if o.lookbackDays ≤ 0 ∨ ¬ RatIsInt o.lookbackDays then
    .error .rangeError
  else if o.matchValues.any (fun v => v < 0 ∨ ¬ RatIsInt v) then
    .error .rangeError
  else
    .ok {
      aggregationService := parseAggregationServiceURL o.aggregationService
      epsilon := o.epsilon
      histogramSize := o.histogramSize.num.toNat
      lookback := days (min o.lookbackDays d.maxLookbackDays)
      matchValues := (o.matchValues.map (·.num)).foldl
        (fun acc v => if v ∈ acc then acc else acc ++ [v]) []
      impressionSites := parseSites o.impressionSites
      impressionCallers := parseSites o.impressionCallers
      credit := o.credit
      value := o.value.num
      maxValue := o.maxValue
    }

/-- Embedding of `measureConversion`. The report produced by the stub
`#encryptReport` is represented by the histogram it wraps, which is also the
value of the optional `unencryptedHistogram` field of the result. -/
def measureConversion (d : Delegate) (rand : ℕ → ℚ) (now : ℚ)
    (topLevelSite : String) (intermediarySite : Option String)
    (o : ConversionOptions) (st : Backend) : Res (List ℤ) × Backend :=
  let topLevelSite := parseSite topLevelSite
  let intermediarySite := intermediarySite.map parseSite
  match validateConversionOptions d o with
  | .error e => (.error e, st)
  | .ok vopts =>
    if st.enabled then
      match doAttributionAndFillHistogram d rand topLevelSite
          intermediarySite now vopts st 0 with
      | (.error e, st1, _) => (.error e, st1)
      | (.ok report, st1, _) => (.ok report, st1)
    else (.ok (allZeroHistogram vopts.histogramSize), st)

/-- Embedding of `saveImpression`. Validation happens before the enabled
check; a disabled backend validates, returns, and stores nothing. -/
def saveImpression (d : Delegate) (now : ℚ) (impressionSite : String)
    (intermediarySite : Option String) (o : ImpressionOptions)
    (st : Backend) : Res Unit × Backend :=
  let impressionSite := parseSite impressionSite
  let intermediarySite := intermediarySite.map parseSite
  let timestamp := now
  if o.histogramIndex < 0 ∨ o.histogramIndex ≥ d.maxHistogramSize ∨
      ¬ RatIsInt o.histogramIndex then (.error .rangeError, st)
  else if o.lifetimeDays ≤ 0 ∨ ¬ RatIsInt o.lifetimeDays then
    (.error .rangeError, st)
  else if (o.conversionSites.length : ℚ) > d.maxConversionSitesPerImpression
    then (.error .rangeError, st)
  else if (o.conversionCallers.length : ℚ) >
      d.maxConversionCallersPerImpression then (.error .rangeError, st)
  else if o.matchValue < 0 ∨ ¬ RatIsInt o.matchValue then
    (.error .rangeError, st)
  else if ¬ RatIsInt o.priority then (.error .rangeError, st)
  else if ¬ st.enabled then (.ok (), st)
  else
    (.ok (), { st with impressions := st.impressions ++ [{
      matchValue := o.matchValue.num
      impressionSite := impressionSite
      intermediarySite := intermediarySite
      conversionSites := parseSites o.conversionSites
      conversionCallers := parseSites o.conversionCallers
      timestamp := timestamp
      lifetime := days (min o.lifetimeDays d.maxLookbackDays)
      histogramIndex := o.histogramIndex.num
      priority := o.priority.num }] })

/-- Embedding of the local `shouldRemoveImpression` of
`clearImpressionsForSite`, returning the removal decision together with the
(possibly narrowed) impression, since the source prunes the two site sets in
place. -/
def shouldRemoveImpression (site : String) (i : Impression) :
    Bool × Impression :=
  if i.intermediarySite = none ∧ i.impressionSite = site then (true, i)
  else if i.intermediarySite = some site then (true, i)
  else
    let r1 :=
      if site ∈ i.conversionSites then
        let cs := i.conversionSites.erase site
        (cs.isEmpty, { i with conversionSites := cs })
      else (false, i)
    if r1.1 then (true, r1.2)
    else
      let i1 := r1.2
      if site ∈ i1.conversionCallers then
        let cc := i1.conversionCallers.erase site
        (cc.isEmpty, { i1 with conversionCallers := cc })
      else (false, i1)

/-- Embedding of `clearImpressionsForSite`: drop the impressions selected by
`shouldRemoveImpression` and keep the rest, with their site sets possibly
narrowed in place. -/
def clearImpressionsForSite (site : String) (st : Backend) : Backend :=
  { st with impressions :=
      ((st.impressions.map (shouldRemoveImpression (parseSite site))).filterMap
        (fun r => if r.1 then none else some r.2)) }

/-- Zero (or create as zero) the budget entry of one (site, epoch) key,
embedding the body of the epoch loop of `#zeroBudgetForSites`. -/
def zeroOneBudget (site : String) (epoch : ℤ)
    (store : List PrivacyBudgetStoreEntry) : List PrivacyBudgetStoreEntry :=
  if (budgetFind store site epoch).isSome then
    budgetSetFirst store site epoch 0
  else store ++ [⟨epoch, site, 0⟩]

/-- Epoch loop of `#zeroBudgetForSites` for a single site. -/
def zeroEpochsLoop (site : String) (epochs : List ℤ)
    (store : List PrivacyBudgetStoreEntry) : List PrivacyBudgetStoreEntry :=
  match epochs with
  | [] => store
  | e :: rest => zeroEpochsLoop site rest (zeroOneBudget site e store)

/-- Site loop of `#zeroBudgetForSites`: compute the epoch interval of each
site (possibly sampling a missing epoch origin) and zero every budget entry
in it. -/
def zeroBudgetSitesLoop (d : Delegate) (rand : ℕ → ℚ) (now : ℚ)
    (sites : List String) (st : Backend) (k : ℕ) :
    Res Unit × Backend × ℕ :=
  match sites with
  | [] => (.ok (), st, k)
  | site :: rest =>
    match getStartEpoch d rand site now st k with
    | (.error e, st1, k1) => (.error e, st1, k1)
    | (.ok startEpoch, st1, k1) =>
      match getCurrentEpoch d rand site now st1 k1 with
      | (.error e, st2, k2) => (.error e, st2, k2)
      | (.ok currentEpoch, st2, k2) =>
        zeroBudgetSitesLoop d rand now rest
          { st2 with privacyBudgetStore :=
              (zeroEpochsLoop site (epochRange startEpoch currentEpoch)
                st2.privacyBudgetStore) } k2

/-- Embedding of `#zeroBudgetForSites`: requires a non-empty site set. -/
def zeroBudgetForSites (d : Delegate) (rand : ℕ → ℚ) (now : ℚ)
    (sites : List String) (st : Backend) : Res Unit × Backend :=
  if sites = [] then (.error .rangeError, st)
  else
    let r := zeroBudgetSitesLoop d rand now sites st 0
    (r.1, r.2.1)

/-- Embedding of `clearState`. With `forgetVisits = false` only privacy
budgets are zeroized; with `forgetVisits = true` the named state (or, for an
empty site list, all state) is dropped and the browsing-history clear
instant is recorded. -/
def clearState (d : Delegate) (rand : ℕ → ℚ) (now : ℚ)
    (sites : List String) (forgetVisits : Bool) (st : Backend) :
    Res Unit × Backend :=
  let parsedSites := parseSites sites
  if ¬ forgetVisits then zeroBudgetForSites d rand now parsedSites st
  else if parsedSites = [] then
    (.ok (), { st with
      impressions := []
      privacyBudgetStore := []
      epochStartStore := []
      lastBrowsingHistoryClear := some now })
  else
    (.ok (), { st with
      impressions := (st.impressions.filter
        (fun e => e.impressionSite ∉ parsedSites))
      privacyBudgetStore := (st.privacyBudgetStore.filter
        (fun e => e.site ∉ parsedSites))
      epochStartStore := (st.epochStartStore.filter
        (fun e => e.1 ∉ parsedSites))
      lastBrowsingHistoryClear := some now })

/-- Embedding of `clearExpiredImpressions`: keep an impression only while
`now` is strictly before the end of its lifetime. -/
def clearExpiredImpressions (now : ℚ) (st : Backend) : Backend :=
  { st with impressions := (st.impressions.filter
      (fun impression =>
        instantCompare now (impression.timestamp + impression.lifetime) < 0)) }

/-- A call to one of the public entry points of the backend, carrying the
instant the delegate clock returns during it and, where random draws may be
consumed, the stream of draws. -/
inductive Op where
  | saveImpression (now : ℚ) (impressionSite : String)
      (intermediarySite : Option String) (o : ImpressionOptions)
  | measureConversion (now : ℚ) (rand : ℕ → ℚ) (topLevelSite : String)
      (intermediarySite : Option String) (o : ConversionOptions)
  | clearImpressionsForSite (site : String)
  | clearState (now : ℚ) (rand : ℕ → ℚ) (sites : List String)
      (forgetVisits : Bool)
  | clearExpiredImpressions (now : ℚ)
  | setEnabled (b : Bool)

/-- Whether an operation is a `clearState` call. -/
def Op.isClearState : Op → Bool
  | .clearState _ _ _ _ => true
  | _ => false

/-- Run one operation against the backend state, keeping whatever state the
operation left behind whether or not it threw. -/
def runOp (d : Delegate) (op : Op) (st : Backend) : Backend :=
  match op with
  | .saveImpression now s i o => (saveImpression d now s i o st).2
  | .measureConversion now rand s i o =>
      (measureConversion d rand now s i o st).2
  | .clearImpressionsForSite site => clearImpressionsForSite site st
  | .clearState now rand sites forgetVisits =>
      (clearState d rand now sites forgetVisits st).2
  | .clearExpiredImpressions now => clearExpiredImpressions now st
  | .setEnabled b => { st with enabled := b }

/-! ### Helper lemmas about list reads, writes and sums -/

lemma getD_set_self (l : List ℚ) (i : ℕ) (x : ℚ) (h : i < l.length) :
    (l.set i x).getD i 0 = x := by
  induction l generalizing i with
  | nil => simp at h
  | cons a t ih =>
    cases i with
    | zero => simp [List.set]
    | succ j => simpa [List.set] using ih j (by simpa using h)

lemma getD_set_ne (l : List ℚ) (i j : ℕ) (x : ℚ) (h : i ≠ j) :
    (l.set i x).getD j 0 = l.getD j 0 := by
  induction l generalizing i j with
  | nil => simp [List.set]
  | cons a t ih =>
    cases i with
    | zero =>
      cases j with
      | zero => exact absurd rfl h
      | succ j2 => simp [List.set]
    | succ i2 =>
      cases j with
      | zero => simp [List.set]
      | succ j2 => simpa [List.set] using ih i2 j2 (fun hh => h (by omega))

lemma sum_set_getD (l : List ℚ) (i : ℕ) (x : ℚ) (h : i < l.length) :
    (l.set i x).sum = l.sum - l.getD i 0 + x := by
  induction l generalizing i with
  | nil => simp at h
  | cons a t ih =>
    cases i with
    | zero => simp [List.set]; ring
    | succ j =>
      have := ih j (by simpa using h)
      simp [List.set, this]; ring

lemma getD_lt_length_mem (l : List ℚ) (i : ℕ) (h : i < l.length) :
    l.getD i 0 ∈ l := by
  induction l generalizing i with
  | nil => simp at h
  | cons a t ih =>
    cases i with
    | zero => simp
    | succ j => simpa using Or.inr (ih j (by simpa using h))

/-! ### The fair allocation invariant -/

/-- Invariant of the pairwise randomized rounding loop after the indices
below `n` have been visited: the working vector keeps its length and its
exact sum, every visited index except the current leader holds a
non-negative integer, the leader (an index below `n`) is non-negative, and
the unvisited entries are still the original positive weights. -/
def FacInv (len : ℕ) (total : ℚ) (n : ℕ) (s : List ℚ × ℕ × ℕ) : Prop :=
  s.1.length = len ∧
  s.2.1 < n ∧
  s.1.sum = total ∧
  (∀ i, i < n → i ≠ s.2.1 → ∃ m : ℕ, s.1.getD i 0 = m) ∧
  0 ≤ s.1.getD s.2.1 0 ∧
  (∀ i, n ≤ i → i < len → 0 < s.1.getD i 0)

lemma checkRandom_ok (p : ℚ) (h1 : 0 ≤ p) (h2 : p < 1) :
    checkRandom p = .ok p := by
  simp [checkRandom, h1, h2]

lemma FacInv_step_stay (len : ℕ) (total : ℚ) (n : ℕ) (ws : List ℚ)
    (idx1 ctr ctr2 : ℕ) (x y : ℚ)
    (hinv : FacInv len total n (ws, idx1, ctr)) (hn : n < len)
    (hxy : x + y = ws.getD n 0 + ws.getD idx1 0)
    (hx : ∃ m : ℕ, x = m) (hy : 0 ≤ y) :
    FacInv len total (n + 1) ((ws.set n x).set idx1 y, idx1, ctr2) := by
  obtain ⟨hlen, hlt, hsum, hproc, hld, hunp⟩ := hinv
  dsimp only at hlen hlt hsum hproc hld hunp
  unfold FacInv
  dsimp only
  have hidx1n : idx1 ≠ n := Nat.ne_of_lt hlt
  have hnlen : n < ws.length := by rw [hlen]; exact hn
  have hidx1len : idx1 < ws.length := by rw [hlen]; omega
  have hidx1len2 : idx1 < (ws.set n x).length := by
    rw [List.length_set]; exact hidx1len
  refine ⟨?_, ?_, ?_, ?_, ?_, ?_⟩
  · simp [List.length_set, hlen]
  · omega
  · rw [sum_set_getD _ _ _ hidx1len2, sum_set_getD _ _ _ hnlen,
      getD_set_ne _ _ _ _ (Ne.symm hidx1n)]
    have := hsum
    linarith [hxy]
  · intro i hi hne
    rcases Nat.lt_or_ge i n with hin | hin
    · rw [getD_set_ne _ _ _ _ (fun h => hne h.symm),
        getD_set_ne _ _ _ _ (by omega)]
      exact hproc i hin hne
    · have : i = n := by omega
      subst this
      rw [getD_set_ne _ _ _ _ hidx1n, getD_set_self _ _ _ hnlen]
      exact hx
  · rw [getD_set_self _ _ _ hidx1len2]
    exact hy
  · intro i h1 h2
    rw [getD_set_ne _ _ _ _ (by omega), getD_set_ne _ _ _ _ (by omega)]
    exact hunp i (by omega) h2

lemma FacInv_step_swap (len : ℕ) (total : ℚ) (n : ℕ) (ws : List ℚ)
    (idx1 ctr ctr2 : ℕ) (x y : ℚ)
    (hinv : FacInv len total n (ws, idx1, ctr)) (hn : n < len)
    (hxy : x + y = ws.getD idx1 0 + ws.getD n 0)
    (hx : ∃ m : ℕ, x = m) (hy : 0 ≤ y) :
    FacInv len total (n + 1) ((ws.set idx1 x).set n y, n, ctr2) := by
  obtain ⟨hlen, hlt, hsum, hproc, hld, hunp⟩ := hinv
  dsimp only at hlen hlt hsum hproc hld hunp
  unfold FacInv
  dsimp only
  have hidx1n : idx1 ≠ n := Nat.ne_of_lt hlt
  have hnlen : n < ws.length := by rw [hlen]; exact hn
  have hidx1len : idx1 < ws.length := by rw [hlen]; omega
  have hnlen2 : n < (ws.set idx1 x).length := by
    rw [List.length_set]; exact hnlen
  refine ⟨?_, ?_, ?_, ?_, ?_, ?_⟩
  · simp [List.length_set, hlen]
  · omega
  · rw [sum_set_getD _ _ _ hnlen2, sum_set_getD _ _ _ hidx1len,
      getD_set_ne _ _ _ _ hidx1n]
    linarith [hxy]
  · intro i hi hne
    rcases Nat.lt_or_ge i n with hin | hin
    · rcases eq_or_ne i idx1 with hii | hii
      · subst hii
        rw [getD_set_ne _ _ _ _ (Ne.symm hidx1n), getD_set_self _ _ _ hidx1len]
        exact hx
      · rw [getD_set_ne _ _ _ _ (by omega), getD_set_ne _ _ _ _ (Ne.symm hii)]
        exact hproc i hin hii
    · omega
  · rw [getD_set_self _ _ _ hnlen2]
    exact hy
  · intro i h1 h2
    rw [getD_set_ne _ _ _ _ (by omega), getD_set_ne _ _ _ _ (by omega)]
    exact hunp i (by omega) h2

lemma toNat_cast_rat (z : ℤ) (h : 0 ≤ z) : ((z.toNat : ℕ) : ℚ) = (z : ℚ) := by
  have h2 := Int.toNat_of_nonneg h
  exact_mod_cast congrArg (fun t : ℤ => (t : ℚ)) h2

lemma facStep_ok (rand : ℕ → ℚ) (len : ℕ) (total : ℚ) (n : ℕ)
    (ws : List ℚ) (idx1 ctr : ℕ)
    (hr0 : 0 ≤ rand ctr) (hr1 : rand ctr < 1)
    (hn : n < len) (hinv : FacInv len total n (ws, idx1, ctr)) :
    ∃ s2, facStep rand (ws, idx1, ctr) n = .ok s2 ∧
      FacInv len total (n + 1) s2 := by
  have hld : 0 ≤ ws.getD idx1 0 := hinv.2.2.2.2.1
  have hw2 : 0 < ws.getD n 0 := hinv.2.2.2.2.2 n le_rfl hn
  have hfl1 : (0:ℤ) ≤ ⌊ws.getD idx1 0⌋ := Int.floor_nonneg.mpr hld
  have hfl2 : (0:ℤ) ≤ ⌊ws.getD n 0⌋ := Int.floor_nonneg.mpr (le_of_lt hw2)
  have hcfl1 : (0:ℚ) ≤ (⌊ws.getD idx1 0⌋ : ℚ) := by exact_mod_cast hfl1
  have hcfl2 : (0:ℚ) ≤ (⌊ws.getD n 0⌋ : ℚ) := by exact_mod_cast hfl2
  have hfr1a : (0:ℚ) ≤ ws.getD idx1 0 - (⌊ws.getD idx1 0⌋ : ℚ) :=
    sub_nonneg.mpr (Int.floor_le _)
  have hfr2a : (0:ℚ) ≤ ws.getD n 0 - (⌊ws.getD n 0⌋ : ℚ) :=
    sub_nonneg.mpr (Int.floor_le _)
  by_cases h0 : ws.getD idx1 0 - ((jsFloor (ws.getD idx1 0) : ℤ) : ℚ) = 0 ∧
      ws.getD n 0 - ((jsFloor (ws.getD n 0) : ℤ) : ℚ) = 0
  · refine ⟨(ws, idx1, ctr), ?_, ?_⟩
    · simp only [facStep]
      rw [if_pos h0]
    · obtain ⟨hlen, hlt, hsum, hproc, hld2, hunp⟩ := hinv
      dsimp only at hlen hlt hsum hproc hld2 hunp
      refine ⟨hlen, by show idx1 < n + 1; omega, hsum, ?_, hld2, ?_⟩
      · intro i hi hne
        rcases Nat.lt_or_ge i n with hin | hin
        · exact hproc i hin hne
        · have hieq : i = n := by
            have hi2 : i < n + 1 := hi
            omega
          show ∃ m : ℕ, ws.getD i 0 = m
          rw [hieq]
          refine ⟨⌊ws.getD n 0⌋.toNat, ?_⟩
          have h2 := h0.2
          simp only [jsFloor] at h2
          rw [toNat_cast_rat _ hfl2]
          linarith
      · intro i h1 h2
        show 0 < ws.getD i 0
        have h1b : n + 1 ≤ i := h1
        exact hunp i (by omega) h2
  · simp only [jsFloor] at h0
    simp only [facStep, jsFloor, if_neg h0, checkRandom_ok _ hr0 hr1]
    by_cases hgt : ws.getD idx1 0 - ((⌊ws.getD idx1 0⌋ : ℤ) : ℚ) +
        (ws.getD n 0 - ((⌊ws.getD n 0⌋ : ℤ) : ℚ)) > 1
    · simp only [if_pos hgt]
      by_cases hp : rand ctr <
          (1 - (ws.getD n 0 - ((⌊ws.getD n 0⌋ : ℤ) : ℚ))) /
            (1 - (ws.getD idx1 0 - ((⌊ws.getD idx1 0⌋ : ℤ) : ℚ)) +
              (1 - (ws.getD n 0 - ((⌊ws.getD n 0⌋ : ℤ) : ℚ))))
      · simp only [if_pos hp]
        refine ⟨_, rfl, ?_⟩
        refine FacInv_step_swap len total n ws idx1 ctr _ _ _ hinv hn
          (by ring) ⟨(⌊ws.getD idx1 0⌋ + 1).toNat, ?_⟩ (by linarith)
        rw [toNat_cast_rat _ (by omega)]
        push_cast
        ring
      · simp only [if_neg hp]
        refine ⟨_, rfl, ?_⟩
        refine FacInv_step_stay len total n ws idx1 ctr _ _ _ hinv hn
          (by ring) ⟨(⌊ws.getD n 0⌋ + 1).toNat, ?_⟩ (by linarith)
        rw [toNat_cast_rat _ (by omega)]
        push_cast
        ring
    · simp only [if_neg hgt]
      by_cases hp : rand ctr <
          -(ws.getD n 0 - ((⌊ws.getD n 0⌋ : ℤ) : ℚ)) /
            (-(ws.getD idx1 0 - ((⌊ws.getD idx1 0⌋ : ℤ) : ℚ)) +
              -(ws.getD n 0 - ((⌊ws.getD n 0⌋ : ℤ) : ℚ)))
      · simp only [if_pos hp]
        refine ⟨_, rfl, ?_⟩
        refine FacInv_step_swap len total n ws idx1 ctr _ _ _ hinv hn
          (by ring) ⟨⌊ws.getD idx1 0⌋.toNat, ?_⟩ (by linarith)
        rw [toNat_cast_rat _ hfl1]
        ring
      · simp only [if_neg hp]
        refine ⟨_, rfl, ?_⟩
        refine FacInv_step_stay len total n ws idx1 ctr _ _ _ hinv hn
          (by ring) ⟨⌊ws.getD n 0⌋.toNat, ?_⟩ (by linarith)
        rw [toNat_cast_rat _ hfl2]
        ring

lemma facLoop_inv (rand : ℕ → ℚ) (hr : ∀ i, 0 ≤ rand i ∧ rand i < 1)
    (len : ℕ) (total : ℚ) :
    ∀ (m n : ℕ) (s : List ℚ × ℕ × ℕ), n + m ≤ len → FacInv len total n s →
      ∃ s2, (List.range' n m).foldlM (facStep rand) s = .ok s2 ∧
        FacInv len total (n + m) s2 := by
  intro m
  induction m with
  | zero =>
    intro n s h hinv
    exact ⟨s, rfl, by simpa using hinv⟩
  | succ m2 ih =>
    intro n s h hinv
    obtain ⟨ws, idx1, ctr⟩ := s
    obtain ⟨s2, hstep, hinv2⟩ := facStep_ok rand len total n ws idx1 ctr
      (hr ctr).1 (hr ctr).2 (by omega) hinv
    obtain ⟨s3, hfold, hinv3⟩ := ih (n + 1) s2 (by omega) hinv2
    refine ⟨s3, ?_, ?_⟩
    · rw [List.range'_succ]
      simp only [List.foldlM_cons, hstep]
      simpa using hfold
    · have heq : n + (m2 + 1) = n + 1 + m2 := by omega
      rw [heq]
      exact hinv3

lemma facStep_inv_of_ok (rand : ℕ → ℚ) (len : ℕ) (total : ℚ) (n : ℕ)
    (ws : List ℚ) (idx1 ctr : ℕ) (s2 : List ℚ × ℕ × ℕ)
    (hn : n < len) (hinv : FacInv len total n (ws, idx1, ctr))
    (hstep : facStep rand (ws, idx1, ctr) n = .ok s2) :
    FacInv len total (n + 1) s2 := by
  by_cases hrc : 0 ≤ rand ctr ∧ rand ctr < 1
  · obtain ⟨s2', heq, hinv2⟩ := facStep_ok rand len total n ws idx1 ctr
      hrc.1 hrc.2 hn hinv
    rw [heq] at hstep
    simp only [Except.ok.injEq] at hstep
    rw [← hstep]
    exact hinv2
  · have hcr : checkRandom (rand ctr) = .error .rangeError := by
      unfold checkRandom
      rw [if_neg hrc]
    unfold facStep at hstep
    dsimp only at hstep
    split at hstep
    · rename_i h0
      obtain ⟨s2', heq, hinv2⟩ := facStep_ok (fun _ => (0:ℚ)) len total n ws
        idx1 ctr (by norm_num) (by norm_num) hn hinv
      have heq2 : facStep (fun _ => (0:ℚ)) (ws, idx1, ctr) n =
          .ok (ws, idx1, ctr) := by
        unfold facStep
        dsimp only
        rw [if_pos h0]
      rw [heq2] at heq
      simp only [Except.ok.injEq] at heq hstep
      rw [← hstep, heq]
      exact hinv2
    · rw [hcr] at hstep
      simp at hstep

lemma facLoop_inv_of_ok (rand : ℕ → ℚ) (len : ℕ) (total : ℚ) :
    ∀ (m n : ℕ) (s s2 : List ℚ × ℕ × ℕ), n + m ≤ len →
      FacInv len total n s →
      (List.range' n m).foldlM (facStep rand) s = .ok s2 →
      FacInv len total (n + m) s2 := by
  intro m
  induction m with
  | zero =>
    intro n s s2 h hinv hfold
    simp only [List.range', List.foldlM_nil] at hfold
    simp only [pure, Except.pure, Except.ok.injEq] at hfold
    rw [← hfold]
    simpa using hinv
  | succ m2 ih =>
    intro n s s2 h hinv hfold
    obtain ⟨ws, idx1, ctr⟩ := s
    rw [List.range'_succ] at hfold
    simp only [List.foldlM_cons] at hfold
    cases hstep : facStep rand (ws, idx1, ctr) n with
    | error e =>
      rw [hstep] at hfold
      simp only [bind, Except.bind] at hfold
      simp at hfold
    | ok s1 =>
      rw [hstep] at hfold
      simp only [bind, Except.bind] at hfold
      have hinv1 := facStep_inv_of_ok rand len total n ws idx1 ctr s1
        (by omega) hinv hstep
      have hfin := ih (n + 1) s1 s2 (by omega) hinv1 hfold
      rw [show n + (m2 + 1) = n + 1 + m2 from by omega]
      exact hfin

lemma getD_map_lt (f : ℚ → ℚ) (l : List ℚ) (i : ℕ) (h : i < l.length) :
    (l.map f).getD i 0 = f (l.getD i 0) := by
  induction l generalizing i with
  | nil => simp at h
  | cons a t ih =>
    cases i with
    | zero => simp
    | succ j => simpa using ih j (by simpa using h)

lemma mem_exists_getD (l : List ℚ) (x : ℚ) (h : x ∈ l) :
    ∃ i, i < l.length ∧ l.getD i 0 = x := by
  induction l with
  | nil => simp at h
  | cons a t ih =>
    rcases List.mem_cons.mp h with rfl | ht
    · exact ⟨0, by simp, rfl⟩
    · obtain ⟨i, hi, hx⟩ := ih ht
      exact ⟨i + 1, by simpa using hi, by simpa using hx⟩

lemma sum_of_nats (t : List ℚ)
    (h : ∀ i, i < t.length → ∃ m : ℕ, t.getD i 0 = m) :
    ∃ m : ℕ, t.sum = m := by
  induction t with
  | nil => exact ⟨0, by simp⟩
  | cons a s ih =>
    obtain ⟨m0, hm0⟩ := h 0 (by simp)
    obtain ⟨ms, hms⟩ := ih (fun i hi => by
      obtain ⟨m, hm⟩ := h (i + 1) (by simpa using hi)
      exact ⟨m, by simpa using hm⟩)
    refine ⟨m0 + ms, ?_⟩
    simp only [List.sum_cons]
    have ha : a = (m0 : ℚ) := by simpa using hm0
    rw [ha, hms]
    push_cast
    ring

lemma sum_except (l : List ℚ) (j : ℕ) (hj : j < l.length)
    (h : ∀ i, i < l.length → i ≠ j → ∃ m : ℕ, l.getD i 0 = m) :
    ∃ zrest : ℤ, l.sum = l.getD j 0 + zrest ∧ 0 ≤ zrest := by
  induction l generalizing j with
  | nil => simp at hj
  | cons a t ih =>
    cases j with
    | zero =>
      obtain ⟨m, hm⟩ := sum_of_nats t (fun i hi => by
        obtain ⟨m2, hm2⟩ := h (i + 1) (by simpa using hi) (by omega)
        exact ⟨m2, by simpa using hm2⟩)
      refine ⟨m, ?_, by positivity⟩
      simp only [List.sum_cons, List.getD_cons_zero, hm]
      push_cast
      ring
    | succ j2 =>
      obtain ⟨m0, hm0⟩ := h 0 (by simp) (by omega)
      obtain ⟨zr, hzr, hzr0⟩ := ih j2 (by simpa using hj) (fun i hi hne => by
        obtain ⟨m, hm⟩ := h (i + 1) (by simpa using hi) (by omega)
        exact ⟨m, by simpa using hm⟩)
      refine ⟨m0 + zr, ?_, by positivity⟩
      simp only [List.sum_cons, List.getD_cons_succ, hzr]
      have ha : a = (m0 : ℚ) := by simpa using hm0
      rw [ha]
      push_cast
      ring

lemma jsRound_intCast (z : ℤ) : jsRound (z : ℚ) = z := by
  unfold jsRound
  rw [Int.floor_int_add]
  norm_num

lemma map_jsRound_sum (l : List ℚ)
    (h : ∀ x ∈ l, ∃ z : ℤ, x = (z : ℚ)) :
    (((l.map jsRound).sum : ℤ) : ℚ) = l.sum := by
  induction l with
  | nil => simp
  | cons a t ih =>
    obtain ⟨z, hz⟩ := h a (by simp)
    have ht := ih (fun x hx => h x (by simp [hx]))
    simp only [List.map_cons, List.sum_cons]
    push_cast
    rw [hz, jsRound_intCast]
    rw [← ht]
    push_cast
    ring

/-- Core correctness of the fair credit allocation: on a non-empty vector
of positive weights, an integral positive value and valid random draws, the
allocation succeeds with a vector of the same length, made of non-negative
integers, summing exactly to the value. -/
theorem fairlyAllocateCredit_ok (credit : List ℚ) (value : ℚ) (rand : ℕ → ℚ)
    (k : ℕ) (hne : credit ≠ []) (hpos : ∀ c ∈ credit, 0 < c)
    (hvint : RatIsInt value) (hv : 0 < value)
    (hr : ∀ i, 0 ≤ rand i ∧ rand i < 1) :
    ∃ out kk, fairlyAllocateCredit credit value rand k = (.ok out, kk) ∧
      out.length = credit.length ∧ (∀ x ∈ out, 0 ≤ x) ∧
      ((out.sum : ℤ) : ℚ) = value := by
  have hS : 0 < credit.sum := List.sum_pos credit hpos hne
  have hS0 : credit.sum ≠ 0 := ne_of_gt hS
  have hlen1 : 1 ≤ credit.length := by
    cases credit with
    | nil => exact absurd rfl hne
    | cons a t => simp
  have hrcsum : (credit.map (fun item => value * item / credit.sum)).sum
      = value := by
    have h1 : credit.map (fun item => value * item / credit.sum)
        = credit.map (fun item => value / credit.sum * item) := by
      refine List.map_congr_left (fun c _ => ?_)
      ring
    rw [h1, List.sum_map_mul_left]
    rw [show (credit.map fun b => b) = credit from by simp]
    field_simp
  have hrcpos : ∀ i, i < credit.length →
      0 < (credit.map (fun item => value * item / credit.sum)).getD i 0 := by
    intro i hi
    rw [getD_map_lt _ credit i hi]
    have hmem := getD_lt_length_mem credit i hi
    have hc := hpos _ hmem
    positivity
  have hinit : FacInv credit.length value 1
      (credit.map (fun item => value * item / credit.sum), 0, k) := by
    refine ⟨by simp, by show (0:ℕ) < 1; omega, hrcsum, ?_, ?_, ?_⟩
    · intro i hi hne2
      have hne3 : i ≠ 0 := hne2
      omega
    · exact le_of_lt (hrcpos 0 (by omega))
    · intro i h1 h2
      exact hrcpos i h2
  obtain ⟨s2, hfold, hfin⟩ := facLoop_inv rand hr credit.length value
    (credit.length - 1) 1 _ (by omega) hinit
  have hfin2 : FacInv credit.length value credit.length s2 := by
    have heq : 1 + (credit.length - 1) = credit.length := by omega
    rwa [heq] at hfin
  obtain ⟨ws, kk, ctr⟩ := s2
  obtain ⟨hlen, hlt, hsum, hproc, hld, _⟩ := hfin2
  dsimp only at hlen hlt hsum hproc hld
  obtain ⟨zr, hzr, hzr0⟩ := sum_except ws kk (by omega)
    (fun i hi hne2 => hproc i (by omega) hne2)
  have hden : value.den = 1 := hvint
  have hvnum : ((value.num : ℤ) : ℚ) = value := by
    have h2 := Rat.num_div_den value
    rw [hden] at h2
    simpa using h2
  have hleadws : ws.getD kk 0 = ((value.num - zr : ℤ) : ℚ) := by
    rw [hsum] at hzr
    push_cast
    rw [hvnum]
    linarith
  have hleadnn : (0:ℤ) ≤ value.num - zr := by
    rw [hleadws] at hld
    exact_mod_cast hld
  have hallint : ∀ x ∈ ws, ∃ z : ℤ, x = (z : ℚ) ∧ 0 ≤ z := by
    intro x hx
    obtain ⟨i, hi, hgd⟩ := mem_exists_getD ws x hx
    rcases eq_or_ne i kk with rfl | hne2
    · exact ⟨value.num - zr, by rw [← hgd, hleadws], hleadnn⟩
    · obtain ⟨m, hm⟩ := hproc i (by omega) hne2
      refine ⟨(m : ℤ), ?_, by positivity⟩
      rw [← hgd, hm]
      push_cast
      ring
  refine ⟨ws.map jsRound, ctr, ?_, ?_, ?_, ?_⟩
  · unfold fairlyAllocateCredit
    simp only [show List.foldl (fun x1 x2 => x1 + x2) 0 credit = credit.sum
      from List.sum_eq_foldl.symm, List.length_map]
    rw [hfold]
  · simp [hlen]
  · intro x hx
    obtain ⟨w, hw, hwx⟩ := List.mem_map.mp hx
    obtain ⟨z, hz, hz0⟩ := hallint w hw
    rw [← hwx, hz, jsRound_intCast]
    exact hz0
  · rw [map_jsRound_sum ws (fun x hx => by
      obtain ⟨z, hz, _⟩ := hallint x hx
      exact ⟨z, hz⟩)]
    exact hsum

/-- Shape of a successful fair credit allocation, conditioned on the
returned result rather than on the validity of the random stream: whenever
the allocation over a non-empty vector of positive weights and a positive
value returns at all, every draw it consumed passed `checkRandom`, so the
invariant holds and the output has the credit vector's length and only
non-negative entries. -/
lemma fairlyAllocateCredit_ok_shape (credit : List ℚ) (value : ℚ)
    (rand : ℕ → ℚ) (k : ℕ) (out : List ℤ) (kk : ℕ)
    (hne : credit ≠ []) (hpos : ∀ c ∈ credit, 0 < c) (hv : 0 < value)
    (h : fairlyAllocateCredit credit value rand k = (.ok out, kk)) :
    out.length = credit.length ∧ ∀ x ∈ out, 0 ≤ x := by
  have hS : 0 < credit.sum := List.sum_pos credit hpos hne
  have hlen1 : 1 ≤ credit.length := by
    cases credit with
    | nil => exact absurd rfl hne
    | cons a t => simp
  unfold fairlyAllocateCredit at h
  dsimp only at h
  rw [show List.foldl (fun x1 x2 => x1 + x2) 0 credit = credit.sum from
    List.sum_eq_foldl.symm] at h
  split at h
  · simp at h
  rename_i ws mid ctr heqfold
  simp only [Prod.mk.injEq, Except.ok.injEq] at h
  obtain ⟨hout, -⟩ := h
  have hrcpos : ∀ i, i < credit.length →
      0 < (credit.map (fun item => value * item / credit.sum)).getD i 0 := by
    intro i hi
    rw [getD_map_lt _ credit i hi]
    have hmem := getD_lt_length_mem credit i hi
    have hc := hpos _ hmem
    positivity
  have hinit : FacInv credit.length
      ((credit.map (fun item => value * item / credit.sum)).sum) 1
      (credit.map (fun item => value * item / credit.sum), 0, k) := by
    refine ⟨by simp, by show (0:ℕ) < 1; omega, rfl, ?_, ?_, ?_⟩
    · intro i hi hne2
      have hne3 : i ≠ 0 := hne2
      omega
    · exact le_of_lt (hrcpos 0 (by omega))
    · intro i h1 h2
      exact hrcpos i h2
  rw [List.length_map] at heqfold
  have hfin := facLoop_inv_of_ok rand credit.length
    ((credit.map (fun item => value * item / credit.sum)).sum)
    (credit.length - 1) 1 _ (ws, mid, ctr) (by omega) hinit heqfold
  have hfin2 : FacInv credit.length
      ((credit.map (fun item => value * item / credit.sum)).sum)
      credit.length (ws, mid, ctr) := by
    rwa [show 1 + (credit.length - 1) = credit.length from by omega] at hfin
  obtain ⟨hlen, hlt, -, hproc, hld, -⟩ := hfin2
  dsimp only at hlen hlt hproc hld
  have hwsnn : ∀ x ∈ ws, 0 ≤ x := by
    intro x hx
    obtain ⟨i, hi, hgd⟩ := mem_exists_getD ws x hx
    rcases eq_or_ne i mid with rfl | hne2
    · rw [← hgd]
      exact hld
    · obtain ⟨m, hm⟩ := hproc i (by omega) hne2
      rw [← hgd, hm]
      positivity
  constructor
  · rw [← hout]
    simp [hlen]
  · intro x hx
    rw [← hout] at hx
    obtain ⟨w, hw, hwx⟩ := List.mem_map.mp hx
    rw [← hwx]
    unfold jsRound
    have hw0 := hwsnn w hw
    exact Int.floor_nonneg.mpr (by linarith)

/-! ### Small facts about comparisons and the epoch oracle -/

lemma instantCompare_neg_iff (a b : ℚ) : instantCompare a b < 0 ↔ a < b := by
  unfold instantCompare
  by_cases h : a < b
  · simp [h]
  · rcases lt_or_le b a with h2 | h2
    · simp [h, h2, not_lt_of_lt h2]
    · have h3 : ¬ b < a := not_lt_of_le h2
      simp [h, h3]

lemma instantCompare_pos_iff (a b : ℚ) : 0 < instantCompare a b ↔ b < a := by
  unfold instantCompare
  by_cases h : a < b
  · simp [h, not_lt_of_lt h]
  · rcases lt_or_le b a with h2 | h2
    · simp [h, h2]
    · have h3 : ¬ b < a := not_lt_of_le h2
      simp [h, h3]

lemma lookupStart_append_of_some (store : List (String × ℚ)) (e : String × ℚ)
    (site : String) (o : ℚ) (h : lookupStart store site = some o) :
    lookupStart (store ++ [e]) site = some o := by
  unfold lookupStart at h ⊢
  cases hf : List.find? (fun x => decide (x.1 = site)) store with
  | none => rw [hf] at h; simp at h
  | some x =>
    rw [hf] at h
    rw [List.find?_append, hf]
    simpa using h

lemma getCurrentEpoch_present (d : Delegate) (rand : ℕ → ℚ) (site : String)
    (t : ℚ) (st : Backend) (k : ℕ) (o : ℚ)
    (h : lookupStart st.epochStartStore site = some o) :
    getCurrentEpoch d rand site t st k =
      (.ok (jsFloor ((t - o) / d.privacyBudgetEpoch)), st, k) := by
  unfold getCurrentEpoch
  rw [h]

lemma getCurrentEpoch_absent (d : Delegate) (rand : ℕ → ℚ) (site : String)
    (t : ℚ) (st : Backend) (k : ℕ)
    (h : lookupStart st.epochStartStore site = none)
    (hr0 : 0 ≤ rand k) (hr1 : rand k < 1) :
    getCurrentEpoch d rand site t st k =
      (.ok (jsFloor ((t - (t - rand k * d.privacyBudgetEpoch)) /
          d.privacyBudgetEpoch)),
        { st with epochStartStore :=
            st.epochStartStore ++ [(site, t - rand k * d.privacyBudgetEpoch)] },
        k + 1) := by
  unfold getCurrentEpoch
  rw [h, checkRandom_ok _ hr0 hr1]

/-! ### Shared concrete fixtures for witnesses and counterexamples -/

/-- A concrete delegate configuration used by the concrete scenarios. -/
def sampleDelegate : Delegate where
  aggregationServices := ["https://agg.example/"]
  maxConversionSitesPerImpression := 4
  maxConversionCallersPerImpression := 4
  maxCreditSize := 4
  maxLookbackDays := 30
  maxHistogramSize := 10
  privacyBudgetMicroEpsilons := 1000000
  privacyBudgetEpoch := 604800
  maxConversionEpsilon := 14

/-- The freshly constructed backend state. -/
def emptyBackend : Backend where
  enabled := true
  impressions := []
  epochStartStore := []
  privacyBudgetStore := []
  lastBrowsingHistoryClear := none

/-- A random stream that always draws one half. -/
def halfRand : ℕ → ℚ := fun _ => 1/2

lemma halfRand_valid : ∀ i, 0 ≤ halfRand i ∧ halfRand i < 1 := by
  intro i
  constructor <;> norm_num [halfRand]

/-! ### Claim C3: fairlyAllocateCredit output shape -/

/-- Claim C3, counterexample to the claim as frozen: the empty credit
vector vacuously has all entries positive, yet the output is the empty
vector, whose sum is 0, not the requested value 1. -/
theorem fairlyAllocateCredit_empty_credit_cex :
    (∀ c ∈ ([] : List ℚ), 0 < c) ∧ 0 < (1:ℚ) ∧ RatIsInt 1 ∧
      (∀ i, 0 ≤ halfRand i ∧ halfRand i < 1) ∧
      fairlyAllocateCredit [] 1 halfRand 0 = (.ok [], 0) ∧
      (([] : List ℤ).sum : ℚ) ≠ 1 := by
  refine ⟨by simp, by norm_num, by decide, halfRand_valid, rfl, by simp⟩

/-- Claim C3 (amended: the credit vector must in addition be non-empty):
for every non-empty credit vector with all entries positive, every positive
integer value and every stream of random draws in the half-open unit
interval, `fairlyAllocateCredit` returns a vector of the same length as the
credit vector whose entries are non-negative integers summing exactly to
the value. -/
theorem fairlyAllocateCredit_sum_eq_value (credit : List ℚ) (value : ℚ)
    (rand : ℕ → ℚ) (hne : credit ≠ []) (hpos : ∀ c ∈ credit, 0 < c)
    (hvint : RatIsInt value) (hv : 0 < value)
    (hr : ∀ i, 0 ≤ rand i ∧ rand i < 1) :
    ∃ out kk, fairlyAllocateCredit credit value rand 0 = (.ok out, kk) ∧
      out.length = credit.length ∧ (∀ x ∈ out, 0 ≤ x) ∧
      ((out.sum : ℤ) : ℚ) = value :=
  fairlyAllocateCredit_ok credit value rand 0 hne hpos hvint hv hr

/-- Witness for the amended claim C3 at the concrete input
credit = [1, 1], value = 10. -/
theorem fairlyAllocateCredit_sum_eq_value_witness :
    ∃ out kk, fairlyAllocateCredit [1, 1] 10 halfRand 0 = (.ok out, kk) ∧
      out.length = ([1, 1] : List ℚ).length ∧ (∀ x ∈ out, 0 ≤ x) ∧
      ((out.sum : ℤ) : ℚ) = 10 :=
  fairlyAllocateCredit_sum_eq_value [1, 1] 10 halfRand (by decide)
    (by intro c hc; fin_cases hc <;> norm_num) (by decide) (by norm_num)
    halfRand_valid

/-! ### Claim C8: clearExpiredImpressions boundary -/

/-- The impression used by the expiry boundary scenario. -/
def boundaryImpression : Impression where
  matchValue := 0
  impressionSite := "a.example"
  intermediarySite := none
  conversionSites := []
  conversionCallers := []
  timestamp := 0
  lifetime := 86400
  histogramIndex := 0
  priority := 0

/-- Claim C8, counterexample to the claim as frozen: at the exact instant
`now = timestamp + lifetime` the claim says the impression is retained
(`now ≤ timestamp + lifetime`), but `clearExpiredImpressions` removes it,
because the source keeps an impression only while the comparison is
strictly negative. -/
theorem clearExpiredImpressions_boundary_cex :
    boundaryImpression ∈
        ({ emptyBackend with impressions := [boundaryImpression] } :
          Backend).impressions ∧
      (86400 : ℚ) ≤ boundaryImpression.timestamp + boundaryImpression.lifetime ∧
      boundaryImpression ∉
        (clearExpiredImpressions 86400
          { emptyBackend with impressions := [boundaryImpression] }).impressions := by
  refine ⟨by decide, by norm_num [boundaryImpression], by decide⟩

/-- Claim C8 (amended: the removal boundary is inclusive): an impression is
kept by `clearExpiredImpressions` exactly when `now` is strictly before
`timestamp + lifetime`; equivalently it removes exactly those impressions
with `now ≥ timestamp + lifetime`, and retained impressions are unchanged. -/
theorem clearExpiredImpressions_mem_iff (now : ℚ) (st : Backend)
    (i : Impression) :
    i ∈ (clearExpiredImpressions now st).impressions ↔
      i ∈ st.impressions ∧ now < i.timestamp + i.lifetime := by
  unfold clearExpiredImpressions
  simp [List.mem_filter, instantCompare_neg_iff]

/-! ### Claim C10: first epoch computation for a fresh site -/

/-- Claim C10: for a site with no stored epoch origin, with a positive
epoch period and a random draw in the half-open unit interval, the first
epoch computation samples an origin in the interval
`(t - epoch_period, t]`, records it, and returns epoch index 0. -/
theorem getCurrentEpoch_fresh_site (d : Delegate) (rand : ℕ → ℚ)
    (site : String) (t : ℚ) (st : Backend) (k : ℕ)
    (habsent : lookupStart st.epochStartStore site = none)
    (hperiod : 0 < d.privacyBudgetEpoch)
    (hr0 : 0 ≤ rand k) (hr1 : rand k < 1) :
    getCurrentEpoch d rand site t st k =
      (.ok 0,
        { st with epochStartStore :=
            st.epochStartStore ++ [(site, t - rand k * d.privacyBudgetEpoch)] },
        k + 1) ∧
      t - d.privacyBudgetEpoch < t - rand k * d.privacyBudgetEpoch ∧
      t - rand k * d.privacyBudgetEpoch ≤ t := by
  have hp0 : d.privacyBudgetEpoch ≠ 0 := ne_of_gt hperiod
  refine ⟨?_, ?_, ?_⟩
  · rw [getCurrentEpoch_absent d rand site t st k habsent hr0 hr1]
    have harg : (t - (t - rand k * d.privacyBudgetEpoch)) /
        d.privacyBudgetEpoch = rand k := by
      field_simp
    rw [harg, show jsFloor (rand k) = 0 from ?_]
    unfold jsFloor
    rw [Int.floor_eq_zero_iff]
    exact ⟨hr0, hr1⟩
  · have := mul_lt_mul_of_pos_right hr1 hperiod
    linarith
  · have := mul_nonneg hr0 (le_of_lt hperiod)
    linarith

/-- Witness for claim C10 at a concrete fresh backend. -/
theorem getCurrentEpoch_fresh_site_witness :
    getCurrentEpoch sampleDelegate halfRand "b.example" 12345 emptyBackend 0 =
      (.ok 0,
        { emptyBackend with epochStartStore :=
            [("b.example", 12345 - (1/2 : ℚ) * 604800)] },
        1) ∧
      (12345 : ℚ) - 604800 < 12345 - (1/2 : ℚ) * 604800 ∧
      (12345 : ℚ) - (1/2 : ℚ) * 604800 ≤ 12345 := by
  have h := getCurrentEpoch_fresh_site sampleDelegate halfRand "b.example"
    12345 emptyBackend 0 (by decide) (by norm_num [sampleDelegate])
    (by norm_num [halfRand]) (by norm_num [halfRand])
  refine ⟨?_, by norm_num, by norm_num⟩
  have h1 := h.1
  simpa [sampleDelegate, halfRand, emptyBackend] using h1

/-! ### Lemmas about the budget store -/

lemma budgetFind_cons (a : PrivacyBudgetStoreEntry)
    (store : List PrivacyBudgetStoreEntry) (s : String) (e : ℤ) :
    budgetFind (a :: store) s e =
      if a.epoch = e ∧ a.site = s then some a.value else budgetFind store s e := by
  unfold budgetFind
  by_cases h : a.epoch = e ∧ a.site = s
  · rw [List.find?_cons_of_pos _ (by simpa using h)]
    simp [h]
  · rw [List.find?_cons_of_neg _ (by simpa using h)]
    simp [h]

lemma budgetFind_setFirst_eq (store : List PrivacyBudgetStoreEntry)
    (site : String) (epoch : ℤ) (v : ℚ)
    (h : (budgetFind store site epoch).isSome) :
    budgetFind (budgetSetFirst store site epoch v) site epoch = some v := by
  induction store with
  | nil => simp [budgetFind] at h
  | cons a t ih =>
    by_cases ha : a.epoch = epoch ∧ a.site = site
    · unfold budgetSetFirst
      rw [if_pos ha, budgetFind_cons]
      simp [ha]
    · unfold budgetSetFirst
      rw [if_neg ha, budgetFind_cons, if_neg ha]
      rw [budgetFind_cons, if_neg ha] at h
      exact ih h

lemma budgetFind_setFirst_ne (store : List PrivacyBudgetStoreEntry)
    (site : String) (epoch : ℤ) (v : ℚ) (s2 : String) (e2 : ℤ)
    (h : ¬(s2 = site ∧ e2 = epoch)) :
    budgetFind (budgetSetFirst store site epoch v) s2 e2 =
      budgetFind store s2 e2 := by
  induction store with
  | nil => simp [budgetSetFirst]
  | cons a t ih =>
    by_cases ha : a.epoch = epoch ∧ a.site = site
    · unfold budgetSetFirst
      rw [if_pos ha, budgetFind_cons, budgetFind_cons]
      have hb : ¬(a.epoch = e2 ∧ a.site = s2) := by
        rintro ⟨h1, h2⟩
        exact h ⟨h2.symm.trans ha.2, h1.symm.trans ha.1⟩
      rw [if_neg (by simpa using hb), if_neg hb]
    · unfold budgetSetFirst
      rw [if_neg ha, budgetFind_cons, budgetFind_cons]
      by_cases hb : a.epoch = e2 ∧ a.site = s2
      · rw [if_pos hb, if_pos hb]
      · rw [if_neg hb, if_neg hb]
        exact ih

lemma budgetFind_append_of_some (store : List PrivacyBudgetStoreEntry)
    (e : PrivacyBudgetStoreEntry) (s2 : String) (e2 : ℤ) (v : ℚ)
    (h : budgetFind store s2 e2 = some v) :
    budgetFind (store ++ [e]) s2 e2 = some v := by
  unfold budgetFind at h ⊢
  rw [List.find?_append]
  cases hf : List.find? (fun x => decide (x.epoch = e2 ∧ x.site = s2)) store with
  | none => rw [hf] at h; simp at h
  | some x =>
    rw [hf] at h
    simpa using h

lemma budgetFind_append_of_none (store : List PrivacyBudgetStoreEntry)
    (e : PrivacyBudgetStoreEntry) (s2 : String) (e2 : ℤ)
    (h : budgetFind store s2 e2 = none) :
    budgetFind (store ++ [e]) s2 e2 =
      (if e.epoch = e2 ∧ e.site = s2 then some e.value else none) := by
  unfold budgetFind at h ⊢
  rw [List.find?_append]
  cases hf : List.find? (fun x => decide (x.epoch = e2 ∧ x.site = s2)) store with
  | none =>
    by_cases hc : e.epoch = e2 ∧ e.site = s2
    · simp [List.find?, hc]
    · simp [List.find?, hc]
  | some x => rw [hf] at h; simp at h

/-! ### Claim C2: the budget deduction algorithm -/

/-- The store after the create-if-absent step of `#deductPrivacyBudget`. -/
def deductStore1 (d : Delegate) (site : String) (epoch : ℤ)
    (store : List PrivacyBudgetStoreEntry) : List PrivacyBudgetStoreEntry :=
  if (budgetFind store site epoch).isSome then store
  else store ++ [⟨epoch, site, d.privacyBudgetMicroEpsilons + 1000⟩]

lemma deductPrivacyBudget_eq (d : Delegate) (site : String) (epoch : ℤ)
    (epsilon value maxValue : ℚ) (l1Norm : Option ℚ)
    (store : List PrivacyBudgetStoreEntry) :
    deductPrivacyBudget d site epoch epsilon value maxValue l1Norm store =
      (if l1Norm.getD (2 * value) / (2 * maxValue / epsilon) < 0 ∨
          l1Norm.getD (2 * value) / (2 * maxValue / epsilon) >
            d.maxConversionEpsilon then
        (false, budgetSetFirst (deductStore1 d site epoch store) site epoch 0)
      else if ((jsCeil (l1Norm.getD (2 * value) / (2 * maxValue / epsilon) *
          1000000) : ℤ) : ℚ) >
          (budgetFind store site epoch).getD
            (d.privacyBudgetMicroEpsilons + 1000) then
        (false, budgetSetFirst (deductStore1 d site epoch store) site epoch 0)
      else
        (true, budgetSetFirst (deductStore1 d site epoch store) site epoch
          ((budgetFind store site epoch).getD
              (d.privacyBudgetMicroEpsilons + 1000) -
            jsCeil (l1Norm.getD (2 * value) / (2 * maxValue / epsilon) *
              1000000)))) := rfl

lemma deductStore1_isSome (d : Delegate) (site : String) (epoch : ℤ)
    (store : List PrivacyBudgetStoreEntry) :
    (budgetFind (deductStore1 d site epoch store) site epoch).isSome := by
  unfold deductStore1
  cases hf : budgetFind store site epoch with
  | some v => simp [hf]
  | none =>
    rw [if_neg (by simp [hf])]
    rw [budgetFind_append_of_none store _ site epoch hf]
    simp

lemma deductStore1_ne (d : Delegate) (site : String) (epoch : ℤ)
    (store : List PrivacyBudgetStoreEntry) (s2 : String) (e2 : ℤ)
    (hne : ¬(s2 = site ∧ e2 = epoch)) :
    budgetFind (deductStore1 d site epoch store) s2 e2 =
      budgetFind store s2 e2 := by
  unfold deductStore1
  cases hf : budgetFind store site epoch with
  | some v => simp [hf]
  | none =>
    rw [if_neg (by simp [hf])]
    cases hf2 : budgetFind store s2 e2 with
    | some w => rw [budgetFind_append_of_some store _ s2 e2 w hf2]
    | none =>
      rw [budgetFind_append_of_none store _ s2 e2 hf2]
      rw [if_neg]
      rintro ⟨h1, h2⟩
      exact hne ⟨h2.symm, h1.symm⟩

lemma deductPrivacyBudget_ne (d : Delegate) (site : String) (epoch : ℤ)
    (epsilon value maxValue : ℚ) (l1Norm : Option ℚ)
    (store : List PrivacyBudgetStoreEntry) (s2 : String) (e2 : ℤ)
    (hne : ¬(s2 = site ∧ e2 = epoch)) :
    budgetFind (deductPrivacyBudget d site epoch epsilon value maxValue
      l1Norm store).2 s2 e2 = budgetFind store s2 e2 := by
  rw [deductPrivacyBudget_eq]
  split_ifs <;>
    simp only <;>
    rw [budgetFind_setFirst_ne _ _ _ _ _ _ hne, deductStore1_ne _ _ _ _ _ _ hne]

/-- Claim C2: every privacy-budget deduction behaves as specified. Writing
`remaining` for the value of the (site, epoch) entry — the configured
`privacyBudgetMicroEpsilons + 1000` when the entry is created because it
was absent — `sensitivity` for the supplied L1 norm (or `2·value` when none
is supplied), `noise_scale = 2·max_value/epsilon` and
`raw = sensitivity/noise_scale`: if `raw < 0` or
`raw > MAX_CONVERSION_EPSILON` the entry is zeroized and the deduction
fails; otherwise, with `cost = ceil(raw·1_000_000)`, if `cost > remaining`
the entry is zeroized and the deduction fails, else the entry keeps
`remaining − cost` and the deduction succeeds; entries under other keys are
untouched. The positivity of `epsilon` and `max_value` under which the
rational embedding is faithful is guaranteed by option validation before
every deduction the backend performs. -/
theorem deductPrivacyBudget_behaviour (d : Delegate) (site : String)
    (epoch : ℤ) (epsilon value maxValue : ℚ) (l1Norm : Option ℚ)
    (store : List PrivacyBudgetStoreEntry)
    (_heps : 0 < epsilon) (_hmax : 0 < maxValue) :
    (∀ s2 e2, ¬(s2 = site ∧ e2 = epoch) →
      budgetFind (deductPrivacyBudget d site epoch epsilon value maxValue
        l1Norm store).2 s2 e2 = budgetFind store s2 e2) ∧
    (if l1Norm.getD (2 * value) / (2 * maxValue / epsilon) < 0 ∨
        l1Norm.getD (2 * value) / (2 * maxValue / epsilon) >
          d.maxConversionEpsilon then
      (deductPrivacyBudget d site epoch epsilon value maxValue l1Norm
        store).1 = false ∧
      budgetFind (deductPrivacyBudget d site epoch epsilon value maxValue
        l1Norm store).2 site epoch = some 0
    else if ((jsCeil (l1Norm.getD (2 * value) / (2 * maxValue / epsilon) *
        1000000) : ℤ) : ℚ) >
        (budgetFind store site epoch).getD
          (d.privacyBudgetMicroEpsilons + 1000) then
      (deductPrivacyBudget d site epoch epsilon value maxValue l1Norm
        store).1 = false ∧
      budgetFind (deductPrivacyBudget d site epoch epsilon value maxValue
        l1Norm store).2 site epoch = some 0
    else
      (deductPrivacyBudget d site epoch epsilon value maxValue l1Norm
        store).1 = true ∧
      budgetFind (deductPrivacyBudget d site epoch epsilon value maxValue
        l1Norm store).2 site epoch =
        some ((budgetFind store site epoch).getD
            (d.privacyBudgetMicroEpsilons + 1000) -
          jsCeil (l1Norm.getD (2 * value) / (2 * maxValue / epsilon) *
            1000000))) := by
  constructor
  · intro s2 e2 hne
    exact deductPrivacyBudget_ne d site epoch epsilon value maxValue l1Norm
      store s2 e2 hne
  · rw [deductPrivacyBudget_eq]
    split_ifs with h1 h2
    · exact ⟨rfl, budgetFind_setFirst_eq _ _ _ _
        (deductStore1_isSome d site epoch store)⟩
    · exact ⟨rfl, budgetFind_setFirst_eq _ _ _ _
        (deductStore1_isSome d site epoch store)⟩
    · exact ⟨rfl, budgetFind_setFirst_eq _ _ _ _
        (deductStore1_isSome d site epoch store)⟩

/-- Witness for claim C2 at a concrete deduction: sensitivity 2·10,
noise scale 20, raw = 1, cost = 1_000_000, deducted from a fresh entry with
1_001_000 micro-epsilons. -/
theorem deductPrivacyBudget_behaviour_witness :
    (0:ℚ) < 1 ∧ (0:ℚ) < 10 ∧
    (deductPrivacyBudget sampleDelegate "a.example" 0 1 10 10 none []).1
        = true ∧
      budgetFind (deductPrivacyBudget sampleDelegate "a.example" 0 1 10 10
        none []).2 "a.example" 0 = some 1000 := by
  refine ⟨by norm_num, by norm_num, ?_, ?_⟩
  · have h := (deductPrivacyBudget_behaviour sampleDelegate "a.example" 0
      1 10 10 none [] (by norm_num) (by norm_num)).2
    rw [if_neg (by norm_num [sampleDelegate]), if_neg (by
      norm_num [budgetFind, jsCeil, sampleDelegate]
      )] at h
    exact h.1
  · have h := (deductPrivacyBudget_behaviour sampleDelegate "a.example" 0
      1 10 10 none [] (by norm_num) (by norm_num)).2
    rw [if_neg (by norm_num [sampleDelegate]), if_neg (by
      norm_num [budgetFind, jsCeil, sampleDelegate]
      )] at h
    have h2 := h.2
    rw [h2]
    norm_num [budgetFind, jsCeil, sampleDelegate]

/-! ### Claim C4: budget values never increase outside clearState -/

lemma deductPrivacyBudget_budget_le (d : Delegate) (site : String)
    (epoch : ℤ) (epsilon value maxValue : ℚ) (l1Norm : Option ℚ)
    (store : List PrivacyBudgetStoreEntry) (s2 : String) (e2 : ℤ) (v : ℚ)
    (hv : budgetFind store s2 e2 = some v) (hv0 : 0 ≤ v) :
    ∃ v2, budgetFind (deductPrivacyBudget d site epoch epsilon value
      maxValue l1Norm store).2 s2 e2 = some v2 ∧ v2 ≤ v ∧ 0 ≤ v2 := by
  by_cases hkey : s2 = site ∧ e2 = epoch
  · obtain ⟨rfl, rfl⟩ := hkey
    have hsome := deductStore1_isSome d s2 e2 store
    rw [deductPrivacyBudget_eq]
    rw [hv]
    simp only [Option.getD_some]
    split_ifs with h1 h2
    · exact ⟨0, budgetFind_setFirst_eq _ _ _ _ hsome, hv0, le_refl 0⟩
    · exact ⟨0, budgetFind_setFirst_eq _ _ _ _ hsome, hv0, le_refl 0⟩
    · push_neg at h1 h2
      have hraw0 : 0 ≤ l1Norm.getD (2 * value) / (2 * maxValue / epsilon) :=
        h1.1
      have hceil0 : (0:ℤ) ≤ jsCeil (l1Norm.getD (2 * value) /
          (2 * maxValue / epsilon) * 1000000) := by
        unfold jsCeil
        refine Int.ceil_nonneg ?_
        positivity
      have hceil0q : (0:ℚ) ≤ ((jsCeil (l1Norm.getD (2 * value) /
          (2 * maxValue / epsilon) * 1000000) : ℤ) : ℚ) := by
        exact_mod_cast hceil0
      refine ⟨_, budgetFind_setFirst_eq _ _ _ _ hsome, ?_, ?_⟩
      · linarith
      · linarith
  · obtain ⟨v2, hv2⟩ : ∃ v2, budgetFind (deductPrivacyBudget d site epoch
        epsilon value maxValue l1Norm store).2 s2 e2 = some v2 ∧ v2 = v := by
      refine ⟨v, ?_, rfl⟩
      rw [deductPrivacyBudget_ne d site epoch epsilon value maxValue l1Norm
        store s2 e2 hkey]
      exact hv
    exact ⟨v2, hv2.1, le_of_eq hv2.2, hv2.2 ▸ hv0⟩

/-- The state after an operation extends the epoch start store and leaves
every other component unchanged. -/
def EpochExtend (st st2 : Backend) : Prop :=
  st2.enabled = st.enabled ∧ st2.impressions = st.impressions ∧
  st2.privacyBudgetStore = st.privacyBudgetStore ∧
  st2.lastBrowsingHistoryClear = st.lastBrowsingHistoryClear ∧
  ∃ l, st2.epochStartStore = st.epochStartStore ++ l

lemma epochExtend_refl (st : Backend) : EpochExtend st st :=
  ⟨rfl, rfl, rfl, rfl, [], by simp⟩

lemma epochExtend_trans (st1 st2 st3 : Backend) (h1 : EpochExtend st1 st2)
    (h2 : EpochExtend st2 st3) : EpochExtend st1 st3 := by
  obtain ⟨a1, b1, c1, d1, l1, e1⟩ := h1
  obtain ⟨a2, b2, c2, d2, l2, e2⟩ := h2
  exact ⟨a2.trans a1, b2.trans b1, c2.trans c1, d2.trans d1, l1 ++ l2,
    by rw [e2, e1, List.append_assoc]⟩

lemma getCurrentEpoch_extend (d : Delegate) (rand : ℕ → ℚ) (site : String)
    (t : ℚ) (st : Backend) (k : ℕ) :
    EpochExtend st (getCurrentEpoch d rand site t st k).2.1 := by
  unfold getCurrentEpoch
  cases h : lookupStart st.epochStartStore site with
  | some o => exact epochExtend_refl st
  | none =>
    cases h2 : checkRandom (rand k) with
    | error e => exact epochExtend_refl st
    | ok p => exact ⟨rfl, rfl, rfl, rfl, _, rfl⟩

lemma getStartEpoch_extend (d : Delegate) (rand : ℕ → ℚ) (site : String)
    (now : ℚ) (st : Backend) (k : ℕ) :
    EpochExtend st (getStartEpoch d rand site now st k).2.1 := by
  unfold getStartEpoch
  split
  · rename_i e st1 k1 heq
    have h := getCurrentEpoch_extend d rand site
      (now - days d.maxLookbackDays) st k
    rw [heq] at h
    exact h
  · rename_i earliest st1 k1 heq
    have h1 : EpochExtend st st1 := by
      have h := getCurrentEpoch_extend d rand site
        (now - days d.maxLookbackDays) st k
      rw [heq] at h
      exact h
    split
    · exact h1
    · rename_i clear hc
      split
      · rename_i e st2 k2 heq2
        have h2 : EpochExtend st1 st2 := by
          have h := getCurrentEpoch_extend d rand site clear st1 k1
          rw [heq2] at h
          exact h
        exact epochExtend_trans _ _ _ h1 h2
      · rename_i clearEpoch st2 k2 heq2
        have h2 : EpochExtend st1 st2 := by
          have h := getCurrentEpoch_extend d rand site clear st1 k1
          rw [heq2] at h
          exact h
        have h3 := epochExtend_trans _ _ _ h1 h2
        split
        · exact h3
        · exact h3

lemma matchImpressions_extend (d : Delegate) (rand : ℕ → ℚ) (top : String)
    (inter : Option String) (epoch : ℤ) (now : ℚ)
    (vopts : ValidatedConversionOptions) (imps : List Impression) :
    ∀ (st : Backend) (k : ℕ),
      EpochExtend st (matchImpressions d rand top inter epoch now vopts
        imps st k).2.1 := by
  induction imps with
  | nil => intro st k; exact epochExtend_refl st
  | cons imp rest ih =>
    intro st k
    unfold matchImpressions
    split
    · rename_i e st1 k1 heq
      have h := getCurrentEpoch_extend d rand top imp.timestamp st k
      rw [heq] at h
      exact h
    · rename_i impressionEpoch st1 k1 heq
      have h1 : EpochExtend st st1 := by
        have h := getCurrentEpoch_extend d rand top imp.timestamp st k
        rw [heq] at h
        exact h
      dsimp only
      split
      · rename_i e st2 k2 heq2
        have h2 : EpochExtend st1 st2 := by
          have h := ih st1 k1
          rw [heq2] at h
          exact h
        exact epochExtend_trans _ _ _ h1 h2
      · rename_i tail st2 k2 heq2
        have h2 : EpochExtend st1 st2 := by
          have h := ih st1 k1
          rw [heq2] at h
          exact h
        exact epochExtend_trans _ _ _ h1 h2

/-- Budget values under every key present with a non-negative value can
only stay or decrease (and stay non-negative) between the two states. -/
def BudgetLE (st st2 : Backend) : Prop :=
  ∀ s e v, budgetFind st.privacyBudgetStore s e = some v → 0 ≤ v →
    ∃ v2, budgetFind st2.privacyBudgetStore s e = some v2 ∧ v2 ≤ v ∧ 0 ≤ v2

lemma budgetLE_refl (st : Backend) : BudgetLE st st :=
  fun _ _ v hv hv0 => ⟨v, hv, le_refl v, hv0⟩

lemma budgetLE_trans (st1 st2 st3 : Backend) (h1 : BudgetLE st1 st2)
    (h2 : BudgetLE st2 st3) : BudgetLE st1 st3 := by
  intro s e v hv hv0
  obtain ⟨v2, ha, hb, hc⟩ := h1 s e v hv hv0
  obtain ⟨v3, hd, he2, hf⟩ := h2 s e v2 ha hc
  exact ⟨v3, hd, le_trans he2 hb, hf⟩

lemma epochExtend_budgetLE (st st2 : Backend) (h : EpochExtend st st2) :
    BudgetLE st st2 := by
  intro s e v hv hv0
  rw [h.2.2.1]
  exact ⟨v, hv, le_refl v, hv0⟩

lemma deduct_budgetLE (d : Delegate) (site : String) (epoch : ℤ)
    (epsilon value maxValue : ℚ) (l1Norm : Option ℚ) (st : Backend) :
    BudgetLE st { st with privacyBudgetStore :=
      (deductPrivacyBudget d site epoch epsilon value maxValue l1Norm
        st.privacyBudgetStore).2 } := by
  intro s e v hv hv0
  exact deductPrivacyBudget_budget_le d site epoch epsilon value maxValue
    l1Norm st.privacyBudgetStore s e v hv hv0

lemma multiEpochLoop_budgetLE (d : Delegate) (rand : ℕ → ℚ) (top : String)
    (inter : Option String) (now : ℚ) (vopts : ValidatedConversionOptions)
    (epochs : List ℤ) :
    ∀ (acc : List Impression) (st : Backend) (k : ℕ),
      BudgetLE st (multiEpochLoop d rand top inter now vopts epochs acc
        st k).2.1 := by
  induction epochs with
  | nil => intro acc st k; exact budgetLE_refl st
  | cons epoch rest ih =>
    intro acc st k
    unfold multiEpochLoop
    split
    · rename_i e st1 k1 heq
      have h := matchImpressions_extend d rand top inter epoch now vopts
        st.impressions st k
      unfold commonMatchingLogic at heq
      rw [heq] at h
      exact epochExtend_budgetLE _ _ h
    · rename_i imps st1 k1 heq
      have h1 : BudgetLE st st1 := by
        have h := matchImpressions_extend d rand top inter epoch now vopts
          st.impressions st k
        unfold commonMatchingLogic at heq
        rw [heq] at h
        exact epochExtend_budgetLE _ _ h
      split
      · exact budgetLE_trans _ _ _ h1 (ih acc st1 k1)
      · refine budgetLE_trans _ _ _ h1 ?_
        refine budgetLE_trans st1 _ _
          (deduct_budgetLE d top epoch vopts.epsilon (vopts.value : ℚ)
            vopts.maxValue none st1) ?_
        exact ih _ _ k1

lemma doAttribution_budgetLE (d : Delegate) (rand : ℕ → ℚ) (top : String)
    (inter : Option String) (now : ℚ) (vopts : ValidatedConversionOptions)
    (st : Backend) (k : ℕ) :
    BudgetLE st (doAttributionAndFillHistogram d rand top inter now vopts
      st k).2.1 := by
  unfold doAttributionAndFillHistogram
  split
  · rename_i e st1 k1 heq
    have h := getCurrentEpoch_extend d rand top now st k
    rw [heq] at h
    exact epochExtend_budgetLE _ _ h
  · rename_i currentEpoch st1 k1 heq
    have h1 : BudgetLE st st1 := by
      have h := getCurrentEpoch_extend d rand top now st k
      rw [heq] at h
      exact epochExtend_budgetLE _ _ h
    split
    · rename_i e st2 k2 heq2
      have h := getStartEpoch_extend d rand top now st1 k1
      rw [heq2] at h
      exact budgetLE_trans _ _ _ h1 (epochExtend_budgetLE _ _ h)
    · rename_i startEpoch st2 k2 heq2
      have h2 : BudgetLE st st2 := by
        have h := getStartEpoch_extend d rand top now st1 k1
        rw [heq2] at h
        exact budgetLE_trans _ _ _ h1 (epochExtend_budgetLE _ _ h)
      split
      · rename_i e st3 k3 heq3
        have h := getCurrentEpoch_extend d rand top (now - vopts.lookback)
          st2 k2
        rw [heq3] at h
        exact budgetLE_trans _ _ _ h2 (epochExtend_budgetLE _ _ h)
      · rename_i earliestEpoch st3 k3 heq3
        have h3 : BudgetLE st st3 := by
          have h := getCurrentEpoch_extend d rand top (now - vopts.lookback)
            st2 k2
          rw [heq3] at h
          exact budgetLE_trans _ _ _ h2 (epochExtend_budgetLE _ _ h)
        dsimp only
        split
        · rename_i e st4 k4 heq4
          have h4 : BudgetLE st3 st4 := by
            by_cases hse : currentEpoch = earliestEpoch
            · rw [if_pos hse] at heq4
              have h := matchImpressions_extend d rand top inter
                currentEpoch now vopts st3.impressions st3 k3
              unfold commonMatchingLogic at heq4
              rw [heq4] at h
              exact epochExtend_budgetLE _ _ h
            · rw [if_neg hse] at heq4
              have h := multiEpochLoop_budgetLE d rand top inter now vopts
                (epochRange startEpoch currentEpoch) [] st3 k3
              rw [heq4] at h
              exact h
          exact budgetLE_trans _ _ _ h3 h4
        · rename_i matched st4 k4 heq4
          have h4 : BudgetLE st st4 := by
            refine budgetLE_trans _ _ _ h3 ?_
            by_cases hse : currentEpoch = earliestEpoch
            · rw [if_pos hse] at heq4
              have h := matchImpressions_extend d rand top inter
                currentEpoch now vopts st3.impressions st3 k3
              unfold commonMatchingLogic at heq4
              rw [heq4] at h
              exact epochExtend_budgetLE _ _ h
            · rw [if_neg hse] at heq4
              have h := multiEpochLoop_budgetLE d rand top inter now vopts
                (epochRange startEpoch currentEpoch) [] st3 k3
              rw [heq4] at h
              exact h
          split
          · exact h4
          · split
            · exact h4
            · rename_i histogram k5 heq5
              split
              · split
                · exact h4
                · refine budgetLE_trans _ _ _ h4 ?_
                  exact deduct_budgetLE d top currentEpoch vopts.epsilon
                    (vopts.value : ℚ) vopts.maxValue
                    (some ((histogram.sum : ℤ) : ℚ)) st4
              · exact h4

lemma measureConversion_budgetLE (d : Delegate) (rand : ℕ → ℚ) (now : ℚ)
    (top : String) (inter : Option String) (o : ConversionOptions)
    (st : Backend) :
    BudgetLE st (measureConversion d rand now top inter o st).2 := by
  unfold measureConversion
  split
  · exact budgetLE_refl st
  · rename_i vopts heq
    split
    · dsimp only
      split
      · rename_i e st1 k1 heq2
        have h := doAttribution_budgetLE d rand (parseSite top)
          (Option.map parseSite inter) now vopts st 0
        rw [heq2] at h
        exact h
      · rename_i report st1 k1 heq2
        have h := doAttribution_budgetLE d rand (parseSite top)
          (Option.map parseSite inter) now vopts st 0
        rw [heq2] at h
        exact h
    · exact budgetLE_refl st

/-- Claim C4: across every backend operation other than `clearState`, the
remaining micro-epsilon value of any existing (site, epoch) budget entry
with a non-negative remaining value is monotonically non-increasing. -/
theorem runOp_budget_monotone (d : Delegate) (op : Op) (st : Backend)
    (hop : op.isClearState = false) (s : String) (e : ℤ) (v : ℚ)
    (hv : budgetFind st.privacyBudgetStore s e = some v) (hv0 : 0 ≤ v) :
    ∃ v2, budgetFind (runOp d op st).privacyBudgetStore s e = some v2 ∧
      v2 ≤ v := by
  have hle : BudgetLE st (runOp d op st) := by
    cases op with
    | saveImpression now site inter o =>
      intro s2 e2 v2 hv2 hv02
      refine ⟨v2, ?_, le_refl v2, hv02⟩
      have hsame : (runOp d (.saveImpression now site inter o)
          st).privacyBudgetStore = st.privacyBudgetStore := by
        show ((saveImpression d now site inter o st).2).privacyBudgetStore =
          st.privacyBudgetStore
        unfold saveImpression
        split_ifs <;> rfl
      rw [hsame]
      exact hv2
    | measureConversion now rand top inter o =>
      exact measureConversion_budgetLE d rand now top inter o st
    | clearImpressionsForSite site =>
      intro s2 e2 v2 hv2 hv02
      exact ⟨v2, hv2, le_refl v2, hv02⟩
    | clearState now rand sites forgetVisits => simp [Op.isClearState] at hop
    | clearExpiredImpressions now =>
      intro s2 e2 v2 hv2 hv02
      exact ⟨v2, hv2, le_refl v2, hv02⟩
    | setEnabled b =>
      intro s2 e2 v2 hv2 hv02
      exact ⟨v2, hv2, le_refl v2, hv02⟩
  obtain ⟨v2, h1, h2, _⟩ := hle s e v hv hv0
  exact ⟨v2, h1, h2⟩

/-- Witness for claim C4: clearing expired impressions leaves a concrete
budget entry at its value. -/
theorem runOp_budget_monotone_witness :
    ∃ v2, budgetFind (runOp sampleDelegate (.clearExpiredImpressions 0)
      { emptyBackend with privacyBudgetStore := [⟨0, "a.example", 5⟩]
        }).privacyBudgetStore "a.example" 0 = some v2 ∧ v2 ≤ 5 :=
  runOp_budget_monotone sampleDelegate (.clearExpiredImpressions 0)
    { emptyBackend with privacyBudgetStore := [⟨0, "a.example", 5⟩] }
    (by decide) "a.example" 0 5 (by decide) (by norm_num)

/-! ### Claims C6 and C7: disabled conversions and option validation -/

/-- A concrete set of valid conversion options against `sampleDelegate`. -/
def sampleConversionOptions : ConversionOptions where
  aggregationService := "https://agg.example/"
  epsilon := 1
  histogramSize := 3
  impressionSites := []
  impressionCallers := []
  lookbackDays := 1
  credit := [1, 1]
  maxValue := 10
  matchValues := []
  value := 10

/-- A concrete set of valid impression options against `sampleDelegate`. -/
def sampleImpressionOptions : ImpressionOptions where
  histogramIndex := 0
  matchValue := 0
  conversionSites := []
  conversionCallers := []
  lifetimeDays := 1
  priority := 0

/-- Claim C6: with the backend disabled, `measureConversion` still
validates its inputs (the result is the validation error when validation
fails), returns an all-zero histogram of the requested size when validation
passes, and leaves the backend state — ledger included — unchanged. -/
theorem measureConversion_disabled (d : Delegate) (rand : ℕ → ℚ) (now : ℚ)
    (top : String) (inter : Option String) (o : ConversionOptions)
    (st : Backend) (hdis : st.enabled = false) :
    (measureConversion d rand now top inter o st).2 = st ∧
    ((∃ v, validateConversionOptions d o = .ok v ∧
        (measureConversion d rand now top inter o st).1 =
          .ok (allZeroHistogram v.histogramSize)) ∨
      (∃ e, validateConversionOptions d o = .error e ∧
        (measureConversion d rand now top inter o st).1 = .error e)) := by
  have hrun : measureConversion d rand now top inter o st =
      (match validateConversionOptions d o with
       | .error e => (.error e, st)
       | .ok vopts => (.ok (allZeroHistogram vopts.histogramSize), st)) := by
    unfold measureConversion
    cases validateConversionOptions d o with
    | error e => rfl
    | ok vopts => simp [hdis]
  rw [hrun]
  cases hv : validateConversionOptions d o with
  | error e => exact ⟨rfl, Or.inr ⟨e, rfl, rfl⟩⟩
  | ok vopts => exact ⟨rfl, Or.inl ⟨vopts, rfl, rfl⟩⟩

/-- Witness for claim C6 at a concrete disabled backend. -/
theorem measureConversion_disabled_witness :
    (measureConversion sampleDelegate halfRand 0 "a.example" none
      sampleConversionOptions { emptyBackend with enabled := false }).2 =
      { emptyBackend with enabled := false } ∧
    ((∃ v, validateConversionOptions sampleDelegate sampleConversionOptions
        = .ok v ∧
        (measureConversion sampleDelegate halfRand 0 "a.example" none
          sampleConversionOptions { emptyBackend with enabled := false }).1 =
          .ok (allZeroHistogram v.histogramSize)) ∨
      (∃ e, validateConversionOptions sampleDelegate sampleConversionOptions
        = .error e ∧
        (measureConversion sampleDelegate halfRand 0 "a.example" none
          sampleConversionOptions { emptyBackend with enabled := false }).1 =
          .error e)) :=
  measureConversion_disabled sampleDelegate halfRand 0 "a.example" none
    sampleConversionOptions { emptyBackend with enabled := false } (by decide)

/-- Claim C7, evaluation at the failing input. The claim says a
`max_value` that is not a positive integer raises an out-of-range error.
The source checks `maxValue <= 0 || !Number.isInteger(value)` — testing
`value` where its own error message says `maxValue` — so the non-integer
`max_value = 5/2` (with integer `value = 1 ≤ 5/2`) passes validation
without any error. -/
theorem validateConversionOptions_maxValue_slip :
    ¬ RatIsInt ((5:ℚ)/2) ∧ (0:ℚ) < 5/2 ∧ (1:ℚ) ≤ 5/2 ∧
    (validateConversionOptions sampleDelegate
      { sampleConversionOptions with value := 1, maxValue := 5/2
        }).toOption.isSome = true := by
  refine ⟨by decide, by norm_num, by norm_num, by decide⟩

/-! ### Claim C9: saveImpression then clearImpressionsForSite -/

/-- The impression record stored by a successful `saveImpression`. -/
def savedImpression (d : Delegate) (now : ℚ) (impressionSite : String)
    (intermediarySite : Option String) (o : ImpressionOptions) :
    Impression where
  matchValue := o.matchValue.num
  impressionSite := parseSite impressionSite
  intermediarySite := intermediarySite.map parseSite
  conversionSites := parseSites o.conversionSites
  conversionCallers := parseSites o.conversionCallers
  timestamp := now
  lifetime := days (min o.lifetimeDays d.maxLookbackDays)
  histogramIndex := o.histogramIndex.num
  priority := o.priority.num

lemma saveImpression_ok_state (d : Delegate) (now : ℚ) (site : String)
    (inter : Option String) (o : ImpressionOptions) (st : Backend)
    (hen : st.enabled = true)
    (hok : (saveImpression d now site inter o st).1 = .ok ()) :
    (saveImpression d now site inter o st).2 =
      { st with impressions :=
          st.impressions ++ [savedImpression d now site inter o] } := by
  unfold saveImpression at hok ⊢
  split_ifs at hok ⊢ with h1 h2 h3 h4 h5 h6 h7 <;>
    first
      | rfl
      | simp at hok
      | exact absurd hen h7

lemma filterMap_untouched (site : String) (l : List Impression)
    (h : ∀ i ∈ l, shouldRemoveImpression site i = (false, i)) :
    (List.filterMap (fun r => if r.1 then none else some r.2)
      (l.map (shouldRemoveImpression site))) = l := by
  induction l with
  | nil => rfl
  | cons a t ih =>
    simp only [List.map_cons, List.filterMap_cons]
    rw [h a (by simp)]
    simp only [if_neg (by simp : ¬ (false = true))]
    rw [ih (fun i hi => h i (by simp [hi]))]

/-- Claim C9 (amended: the prior store must contain no impression that
`clearImpressionsForSite(impression_site)` would remove or mutate): on an
enabled backend, a successful `saveImpression` of an impression with no
intermediary site and no conversion-site constraints, immediately followed
by `clearImpressionsForSite(impression_site)`, restores the impression
store to its prior content. -/
theorem saveImpression_clear_roundtrip (d : Delegate) (now : ℚ)
    (site : String) (o : ImpressionOptions) (st : Backend)
    (hen : st.enabled = true) (_hcs : o.conversionSites = [])
    (hok : (saveImpression d now site none o st).1 = .ok ())
    (hprior : ∀ i ∈ st.impressions,
      shouldRemoveImpression (parseSite site) i = (false, i)) :
    (clearImpressionsForSite site
      (saveImpression d now site none o st).2).impressions =
      st.impressions := by
  rw [saveImpression_ok_state d now site none o st hen hok]
  unfold clearImpressionsForSite
  show (List.filterMap _ ((st.impressions ++
    [savedImpression d now site none o]).map _)) = st.impressions
  rw [List.map_append, List.filterMap_append]
  rw [filterMap_untouched (parseSite site) st.impressions hprior]
  have hrm : shouldRemoveImpression (parseSite site)
      (savedImpression d now site none o) =
      (true, savedImpression d now site none o) := by
    unfold shouldRemoveImpression
    rw [if_pos]
    exact ⟨rfl, rfl⟩
  simp [hrm]

/-- Witness for the amended claim C9 at a concrete empty prior store. -/
theorem saveImpression_clear_roundtrip_witness :
    (clearImpressionsForSite "a.example"
      (saveImpression sampleDelegate 0 "a.example" none
        sampleImpressionOptions emptyBackend).2).impressions =
      emptyBackend.impressions :=
  saveImpression_clear_roundtrip sampleDelegate 0 "a.example"
    sampleImpressionOptions emptyBackend (by decide) (by decide) (by decide)
    (by intro i hi; simp [emptyBackend] at hi)

/-- Claim C9, counterexample to the claim as frozen: with a prior
impression already stored for the same site,
`saveImpression` followed by `clearImpressionsForSite` removes the prior
impression as well, so the store is not restored. -/
theorem saveImpression_clear_roundtrip_cex :
    (saveImpression sampleDelegate 0 "a.example" none
      sampleImpressionOptions
      { emptyBackend with impressions := [boundaryImpression] }).1 =
        .ok () ∧
    sampleImpressionOptions.conversionSites = [] ∧
    (clearImpressionsForSite "a.example"
      (saveImpression sampleDelegate 0 "a.example" none
        sampleImpressionOptions
        { emptyBackend with impressions := [boundaryImpression] }).2
      ).impressions ≠ [boundaryImpression] := by
  refine ⟨by decide, by decide, by decide⟩

/-! ### Claim C1: shape of the emitted histogram -/

lemma getD_set_selfI (l : List ℤ) (i : ℕ) (x : ℤ) (h : i < l.length) :
    (l.set i x).getD i 0 = x := by
  induction l generalizing i with
  | nil => simp at h
  | cons a t ih =>
    cases i with
    | zero => simp [List.set]
    | succ j => simpa [List.set] using ih j (by simpa using h)

lemma sum_set_getDI (l : List ℤ) (i : ℕ) (x : ℤ) (h : i < l.length) :
    (l.set i x).sum = l.sum - l.getD i 0 + x := by
  induction l generalizing i with
  | nil => simp at h
  | cons a t ih =>
    cases i with
    | zero => simp [List.set]; ring
    | succ j =>
      have := ih j (by simpa using h)
      simp [List.set, this]; ring

lemma insertImpression_perm (x : Impression) (l : List Impression) :
    (insertImpression x l).Perm (x :: l) := by
  induction l with
  | nil => exact List.Perm.refl _
  | cons y ys ih =>
    unfold insertImpression
    by_cases hc : impressionLE y x ∧ ¬ impressionLE x y
    · rw [if_pos hc]
      exact (ih.cons y).trans (List.Perm.swap x y ys)
    · rw [if_neg hc]

lemma sortImpressions_perm (l : List Impression) :
    (sortImpressions l).Perm l := by
  induction l with
  | nil => exact List.Perm.refl _
  | cons x xs ih =>
    unfold sortImpressions
    exact (insertImpression_perm x (sortImpressions xs)).trans (ih.cons x)

lemma fillLoop_length (pairs : List (Impression × ℤ)) (h : List ℤ) :
    (fillLoop pairs h).length = h.length := by
  induction pairs generalizing h with
  | nil => rfl
  | cons p rest ih =>
    obtain ⟨imp, c⟩ := p
    unfold fillLoop
    split_ifs with hin
    · rw [ih]
      simp
    · exact ih h

lemma getD_lt_length_memI (l : List ℤ) (i : ℕ) (h : i < l.length) :
    l.getD i 0 ∈ l := by
  induction l generalizing i with
  | nil => simp at h
  | cons a t ih =>
    cases i with
    | zero => simp
    | succ j => simpa using Or.inr (ih j (by simpa using h))

lemma fillLoop_nonneg (pairs : List (Impression × ℤ)) (h : List ℤ)
    (hh : ∀ x ∈ h, 0 ≤ x) (hc : ∀ p ∈ pairs, 0 ≤ p.2) :
    ∀ x ∈ fillLoop pairs h, 0 ≤ x := by
  induction pairs generalizing h with
  | nil => exact hh
  | cons p rest ih =>
    obtain ⟨imp, c⟩ := p
    unfold fillLoop
    split_ifs with hin
    · refine ih _ ?_ (fun q hq => hc q (by simp [hq]))
      intro x hx
      rcases List.mem_or_eq_of_mem_set hx with hx2 | hx2
      · exact hh x hx2
      · rw [hx2]
        have hidx : imp.histogramIndex.toNat < h.length := by omega
        have h1 : 0 ≤ h.getD imp.histogramIndex.toNat 0 :=
          hh _ (getD_lt_length_memI h _ hidx)
        have h2 : (0:ℤ) ≤ c := hc (imp, c) (by simp)
        omega
    · exact ih h hh (fun q hq => hc q (by simp [hq]))

lemma fillLoop_sum (pairs : List (Impression × ℤ)) (h : List ℤ) :
    (fillLoop pairs h).sum = h.sum +
      ((pairs.filter (fun p => decide (0 ≤ p.1.histogramIndex ∧
        p.1.histogramIndex < (h.length : ℤ)))).map (fun p => p.2)).sum := by
  induction pairs generalizing h with
  | nil => simp [fillLoop]
  | cons p rest ih =>
    obtain ⟨imp, c⟩ := p
    unfold fillLoop
    split_ifs with hin
    · rw [ih]
      have hlen : (h.set imp.histogramIndex.toNat
          (h.getD imp.histogramIndex.toNat 0 + c)).length = h.length := by
        simp
      simp only [hlen]
      rw [sum_set_getDI h _ _ (by omega)]
      rw [List.filter_cons_of_pos (by simpa using hin)]
      simp only [List.map_cons, List.sum_cons]
      ring
    · rw [ih h]
      rw [List.filter_cons_of_neg (by simpa using hin)]

lemma sum_map_filter_le (pairs : List (Impression × ℤ))
    (p : Impression × ℤ → Bool) (h : ∀ q ∈ pairs, 0 ≤ q.2) :
    ((pairs.filter p).map (fun q => q.2)).sum ≤
      (pairs.map (fun q => q.2)).sum := by
  induction pairs with
  | nil => simp
  | cons a rest ih =>
    have hrest := ih (fun q hq => h q (by simp [hq]))
    by_cases hp : p a
    · rw [List.filter_cons_of_pos hp]
      simp only [List.map_cons, List.sum_cons]
      linarith
    · rw [List.filter_cons_of_neg (by simpa using hp)]
      simp only [List.map_cons, List.sum_cons]
      have ha := h a (by simp)
      linarith

lemma ratNum_cast_eq (q : ℚ) (h : RatIsInt q) : ((q.num : ℤ) : ℚ) = q := by
  have hden : q.den = 1 := h
  have h2 := Rat.num_div_den q
  rw [hden] at h2
  simpa using h2

lemma validateConversionOptions_ok_facts (d : Delegate)
    (o : ConversionOptions) (vopts : ValidatedConversionOptions)
    (h : validateConversionOptions d o = .ok vopts) :
    vopts.credit = o.credit ∧ o.credit ≠ [] ∧ (∀ c ∈ o.credit, 0 < c) ∧
    0 < vopts.value ∧ ((vopts.value : ℤ) : ℚ) = o.value ∧
    1 ≤ vopts.histogramSize ∧
    ((vopts.histogramSize : ℕ) : ℚ) = o.histogramSize := by
  unfold validateConversionOptions at h
  by_cases h1 : parseAggregationServiceURL o.aggregationService ∉
      d.aggregationServices
  · rw [if_pos h1] at h; simp at h
  rw [if_neg h1] at h
  by_cases h2 : o.epsilon ≤ 0 ∨ o.epsilon > d.maxConversionEpsilon
  · rw [if_pos h2] at h; simp at h
  rw [if_neg h2] at h
  by_cases h3 : o.histogramSize < 1 ∨ o.histogramSize > d.maxHistogramSize ∨
      ¬RatIsInt o.histogramSize
  · rw [if_pos h3] at h; simp at h
  rw [if_neg h3] at h
  by_cases h4 : o.value ≤ 0 ∨ ¬RatIsInt o.value
  · rw [if_pos h4] at h; simp at h
  rw [if_neg h4] at h
  by_cases h5 : o.maxValue ≤ 0 ∨ ¬RatIsInt o.value
  · rw [if_pos h5] at h; simp at h
  rw [if_neg h5] at h
  by_cases h6 : o.value > o.maxValue
  · rw [if_pos h6] at h; simp at h
  rw [if_neg h6] at h
  by_cases h7 : o.credit.length = 0 ∨ (o.credit.length : ℚ) > d.maxCreditSize
  · rw [if_pos h7] at h; simp at h
  rw [if_neg h7] at h
  by_cases h8 : (o.credit.any fun c => decide (c ≤ 0)) = true
  · rw [if_pos h8] at h; simp at h
  rw [if_neg h8] at h
  by_cases h9 : o.lookbackDays ≤ 0 ∨ ¬RatIsInt o.lookbackDays
  · rw [if_pos h9] at h; simp at h
  rw [if_neg h9] at h
  by_cases h10 : (o.matchValues.any fun v => decide (v < 0 ∨ ¬RatIsInt v))
      = true
  · rw [if_pos h10] at h; simp at h
  rw [if_neg h10] at h
  rw [Except.ok.injEq] at h
  subst h
  push_neg at h3 h4 h7
  have hint : RatIsInt o.histogramSize := h3.2.2
  have hpos : (1:ℚ) ≤ o.histogramSize := h3.1
  have hvpos : (0:ℚ) < o.value := h4.1
  have hvint : RatIsInt o.value := h4.2
  have hnum0 : (0:ℤ) < o.value.num := Rat.num_pos.mpr hvpos
  have hhnum : (1:ℤ) ≤ o.histogramSize.num := by
    have hc := ratNum_cast_eq o.histogramSize hint
    have h11 : (1:ℚ) ≤ ((o.histogramSize.num : ℤ) : ℚ) := by
      rw [hc]; exact hpos
    exact_mod_cast h11
  refine ⟨rfl, ?_, ?_, ?_, ?_, ?_, ?_⟩
  · intro hnil
    exact h7.1 (by rw [hnil]; rfl)
  · intro c hc
    simp only [List.any_eq_true, decide_eq_true_eq, not_exists] at h8
    by_contra hle
    push_neg at hle
    simp only [not_and, not_le] at h8
    have := h8 c
    rw [imp_iff_not_or] at this
    rcases this with hnot | hpos2
    · exact hnot hc
    · exact absurd hpos2 (not_lt.mpr hle)
  · show (0:ℤ) < o.value.num
    exact hnum0
  · show ((o.value.num : ℤ) : ℚ) = o.value
    exact ratNum_cast_eq o.value hvint
  · show 1 ≤ o.histogramSize.num.toNat
    omega
  · show ((o.histogramSize.num.toNat : ℕ) : ℚ) = o.histogramSize
    rw [toNat_cast_rat _ (by omega)]
    exact ratNum_cast_eq o.histogramSize hint

lemma mem_ite_subset {α : Type} (c : Prop) [Decidable c] (l1 l2 : List α)
    (x : α) (h : x ∈ (if c then l1 else l2)) : x ∈ l1 ∨ x ∈ l2 := by
  split at h
  · exact Or.inl h
  · exact Or.inr h

lemma matchImpressions_ok_subset (d : Delegate) (rand : ℕ → ℚ)
    (top : String) (inter : Option String) (epoch : ℤ) (now : ℚ)
    (vopts : ValidatedConversionOptions) (imps : List Impression) :
    ∀ (st : Backend) (k : ℕ) (l : List Impression) (st2 : Backend) (k2 : ℕ),
      matchImpressions d rand top inter epoch now vopts imps st k =
        (.ok l, st2, k2) → ∀ i ∈ l, i ∈ imps := by
  induction imps with
  | nil =>
    intro st k l st2 k2 h i hi
    unfold matchImpressions at h
    simp only [Prod.mk.injEq, Except.ok.injEq] at h
    rw [← h.1] at hi
    simp at hi
  | cons imp rest ih =>
    intro st k l st2 k2 h i hi
    unfold matchImpressions at h
    rcases hg : getCurrentEpoch d rand top imp.timestamp st k
      with ⟨r1, st1, k1⟩
    rw [hg] at h
    cases r1 with
    | error e => simp at h
    | ok impEpoch =>
      dsimp only at h
      rcases hm : matchImpressions d rand top inter epoch now vopts rest
        st1 k1 with ⟨r2, st2b, k2b⟩
      rw [hm] at h
      cases r2 with
      | error e => simp at h
      | ok tail =>
        simp only [Prod.mk.injEq, Except.ok.injEq] at h
        rw [← h.1] at hi
        rcases mem_ite_subset _ _ _ _ hi with hi2 | hi2
        · rcases List.mem_cons.mp hi2 with rfl | hi3
          · exact List.mem_cons_self _ _
          · exact List.mem_cons_of_mem _ (ih st1 k1 tail st2b k2b hm i hi3)
        · exact List.mem_cons_of_mem _ (ih st1 k1 tail st2b k2b hm i hi2)

lemma multiEpochLoop_ok_subset (d : Delegate) (rand : ℕ → ℚ) (top : String)
    (inter : Option String) (now : ℚ) (vopts : ValidatedConversionOptions)
    (epochs : List ℤ) :
    ∀ (acc : List Impression) (st : Backend) (k : ℕ) (l : List Impression)
      (st2 : Backend) (k2 : ℕ),
      multiEpochLoop d rand top inter now vopts epochs acc st k =
        (.ok l, st2, k2) →
      ∀ i ∈ l, i ∈ acc ∨ i ∈ st.impressions := by
  induction epochs with
  | nil =>
    intro acc st k l st2 k2 h i hi
    unfold multiEpochLoop at h
    simp only [Prod.mk.injEq, Except.ok.injEq] at h
    rw [← h.1] at hi
    exact Or.inl hi
  | cons epoch rest ih =>
    intro acc st k l st2 k2 h i hi
    unfold multiEpochLoop at h
    rcases hc : commonMatchingLogic d rand top inter epoch now vopts st k
      with ⟨r1, st1, k1⟩
    have himps : st1.impressions = st.impressions := by
      have hx := matchImpressions_extend d rand top inter epoch now vopts
        st.impressions st k
      unfold commonMatchingLogic at hc
      rw [hc] at hx
      exact hx.2.1
    rw [hc] at h
    cases r1 with
    | error e => simp at h
    | ok imps =>
      have hsub : ∀ j ∈ imps, j ∈ st.impressions := by
        intro j hj
        unfold commonMatchingLogic at hc
        exact matchImpressions_ok_subset d rand top inter epoch now vopts
          st.impressions st k imps st1 k1 hc j hj
      dsimp only at h
      split at h
      · have := ih acc st1 k1 l st2 k2 h i hi
        rw [himps] at this
        exact this
      · have := ih _ _ k1 l st2 k2 h i hi
        rcases this with hacc | hstim
        · rcases mem_ite_subset _ _ _ _ hacc with h2 | h2
          · rcases List.mem_append.mp h2 with h3 | h3
            · exact Or.inl h3
            · exact Or.inr (hsub i h3)
          · exact Or.inl h2
        · simp only [himps] at hstim
          exact Or.inr hstim

lemma zip_snd_eq {α β : Type} (l1 : List α) (l2 : List β)
    (h : l1.length = l2.length) : (l1.zip l2).map Prod.snd = l2 := by
  induction l1 generalizing l2 with
  | nil =>
    cases l2 with
    | nil => rfl
    | cons b t => simp at h
  | cons a t ih =>
    cases l2 with
    | nil => simp at h
    | cons b t2 => simpa using ih t2 (by simpa using h)

lemma fillHistogram_ok (rand : ℕ → ℚ) (k : ℕ) (matched : List Impression)
    (size : ℕ) (value : ℤ) (credit : List ℚ)
    (hm : matched ≠ []) (hcne : credit ≠ []) (hcpos : ∀ c ∈ credit, 0 < c)
    (hv : 0 < value) (hr : ∀ i, 0 ≤ rand i ∧ rand i < 1) :
    ∃ hist k2, fillHistogramWithLastNTouchAttribution rand matched size
      value credit k = (.ok hist, k2) ∧
      hist.length = size ∧ (∀ x ∈ hist, 0 ≤ x) ∧ hist.sum ≤ value ∧
      ((∀ i ∈ matched, 0 ≤ i.histogramIndex ∧ i.histogramIndex < (size:ℤ))
        → hist.sum = value) := by
  have hsortperm := sortImpressions_perm matched
  have hsortlen : (sortImpressions matched).length = matched.length :=
    hsortperm.length_eq
  have hmlen : 1 ≤ matched.length := by
    cases matched with
    | nil => exact absurd rfl hm
    | cons a t => simp
  have hclen : 1 ≤ credit.length := by
    cases credit with
    | nil => exact absurd rfl hcne
    | cons a t => simp
  have hN1 : 1 ≤ min credit.length (sortImpressions matched).length := by
    omega
  have hc2len : (credit.take
      (min credit.length (sortImpressions matched).length)).length =
      min credit.length (sortImpressions matched).length := by
    rw [List.length_take]
    omega
  have hc2ne : credit.take
      (min credit.length (sortImpressions matched).length) ≠ [] := by
    intro hnil
    rw [hnil] at hc2len
    simp at hc2len
    omega
  have hc2pos : ∀ c ∈ credit.take
      (min credit.length (sortImpressions matched).length), 0 < c :=
    fun c hc => hcpos c (List.take_subset _ _ hc)
  obtain ⟨out, kk, halloc, hlen, hnonneg, hsum⟩ :=
    fairlyAllocateCredit_ok
      (credit.take (min credit.length (sortImpressions matched).length))
      (value : ℚ) rand k hc2ne hc2pos (by
        show ((value : ℚ)).den = 1
        exact Rat.den_intCast value)
      (by exact_mod_cast hv) hr
  have hsumZ : out.sum = value := by
    exact_mod_cast hsum
  have hlastlen : ((sortImpressions matched).take
      (min credit.length (sortImpressions matched).length)).length =
      out.length := by
    rw [List.length_take, hlen, hc2len]
    omega
  have hpairs : (((sortImpressions matched).take
      (min credit.length (sortImpressions matched).length)).zip out).map
      Prod.snd = out := zip_snd_eq _ _ hlastlen
  refine ⟨fillLoop (((sortImpressions matched).take
      (min credit.length (sortImpressions matched).length)).zip out)
      (allZeroHistogram size), kk, ?_, ?_, ?_, ?_, ?_⟩
  · unfold fillHistogramWithLastNTouchAttribution
    rw [if_neg hm]
    dsimp only
    rw [halloc]
  · rw [fillLoop_length]
    simp [allZeroHistogram]
  · refine fillLoop_nonneg _ _ (by simp [allZeroHistogram]) ?_
    intro p hp
    exact hnonneg p.2 (List.mem_zip hp).2
  · rw [fillLoop_sum]
    have hbase : (allZeroHistogram size).sum = 0 := by
      simp [allZeroHistogram]
    rw [hbase]
    have hle := sum_map_filter_le
      ((((sortImpressions matched).take
        (min credit.length (sortImpressions matched).length)).zip out))
      (fun p => decide (0 ≤ p.1.histogramIndex ∧
        p.1.histogramIndex < ((allZeroHistogram size).length : ℤ)))
      (fun q hq => hnonneg q.2 (List.mem_zip hq).2)
    rw [hpairs] at hle
    rw [hsumZ] at hle
    linarith
  · intro hinrange
    rw [fillLoop_sum]
    have hbase : (allZeroHistogram size).sum = 0 := by
      simp [allZeroHistogram]
    rw [hbase]
    have hall : ∀ p ∈ (((sortImpressions matched).take
        (min credit.length (sortImpressions matched).length)).zip out),
        (decide (0 ≤ p.1.histogramIndex ∧
          p.1.histogramIndex < ((allZeroHistogram size).length : ℤ))) = true := by
      intro p hp
      have hmem : p.1 ∈ sortImpressions matched :=
        List.take_subset _ _ (List.mem_zip hp).1
      have hmem2 : p.1 ∈ matched := hsortperm.mem_iff.mp hmem
      have hb := hinrange p.1 hmem2
      simp only [allZeroHistogram, List.length_replicate]
      simp only [decide_eq_true_eq]
      exact hb
    rw [List.filter_eq_self.mpr hall]
    rw [hpairs, hsumZ]
    ring

/-- Shape of a successful histogram fill, conditioned on the returned
result only: the histogram has the requested size and non-negative
entries. -/
lemma fillHistogram_ok_shape (rand : ℕ → ℚ) (k : ℕ)
    (matched : List Impression) (size : ℕ) (value : ℤ) (credit : List ℚ)
    (hcne : credit ≠ []) (hcpos : ∀ c ∈ credit, 0 < c) (hv : 0 < value)
    (hist : List ℤ) (k2 : ℕ)
    (h : fillHistogramWithLastNTouchAttribution rand matched size value
      credit k = (.ok hist, k2)) :
    hist.length = size ∧ ∀ x ∈ hist, 0 ≤ x := by
  unfold fillHistogramWithLastNTouchAttribution at h
  by_cases hm : matched = []
  · rw [if_pos hm] at h
    simp at h
  rw [if_neg hm] at h
  dsimp only at h
  split at h
  · simp at h
  rename_i out k1 heqa
  simp only [Prod.mk.injEq, Except.ok.injEq] at h
  obtain ⟨hout, -⟩ := h
  have hclen : 1 ≤ credit.length := by
    cases credit with
    | nil => exact absurd rfl hcne
    | cons a t => simp
  have hc2len : (credit.take
      (min credit.length (sortImpressions matched).length)).length =
      min credit.length (sortImpressions matched).length := by
    rw [List.length_take]
    omega
  have hsortlen : (sortImpressions matched).length = matched.length :=
    (sortImpressions_perm matched).length_eq
  have hmlen : 1 ≤ matched.length := by
    cases matched with
    | nil => exact absurd rfl hm
    | cons a t => simp
  have hc2ne : credit.take
      (min credit.length (sortImpressions matched).length) ≠ [] := by
    intro hnil
    rw [hnil] at hc2len
    simp at hc2len
    omega
  have hc2pos : ∀ c ∈ credit.take
      (min credit.length (sortImpressions matched).length), 0 < c :=
    fun c hc => hcpos c (List.take_subset _ _ hc)
  obtain ⟨hlen, hnn⟩ := fairlyAllocateCredit_ok_shape
    (credit.take (min credit.length (sortImpressions matched).length))
    (value : ℚ) rand k out k1 hc2ne hc2pos (by exact_mod_cast hv) heqa
  constructor
  · rw [← hout, fillLoop_length]
    simp [allZeroHistogram]
  · rw [← hout]
    refine fillLoop_nonneg _ _ (by simp [allZeroHistogram]) ?_
    intro p hp
    exact hnn p.2 (List.of_mem_zip hp).2

/-- Shape of a successful attribution pass, conditioned on the returned
result only: the histogram has the validated size and non-negative
entries, whatever the matched impressions and random draws were. -/
lemma doAttribution_shape (d : Delegate) (rand : ℕ → ℚ) (top : String)
    (inter : Option String) (now : ℚ) (vopts : ValidatedConversionOptions)
    (st : Backend) (k : ℕ)
    (hcne : vopts.credit ≠ []) (hcpos : ∀ c ∈ vopts.credit, 0 < c)
    (hv : 0 < vopts.value)
    (hist : List ℤ) (st2 : Backend) (k2 : ℕ)
    (h : doAttributionAndFillHistogram d rand top inter now vopts st k =
      (.ok hist, st2, k2)) :
    hist.length = vopts.histogramSize ∧ ∀ x ∈ hist, 0 ≤ x := by
  unfold doAttributionAndFillHistogram at h
  split at h
  · simp at h
  rename_i currentEpoch st1 k1 hg1
  split at h
  · simp at h
  rename_i startEpoch st2a k2a hg2
  split at h
  · simp at h
  rename_i earliestEpoch st3 k3 hg3
  dsimp only at h
  rcases hg4 : (if currentEpoch = earliestEpoch then
      commonMatchingLogic d rand top inter currentEpoch now vopts st3 k3
    else
      multiEpochLoop d rand top inter now vopts
        (epochRange startEpoch currentEpoch) [] st3 k3)
    with ⟨r4, st4, k4⟩
  rw [hg4] at h
  cases r4 with
  | error e => simp at h
  | ok matched =>
  dsimp only at h
  by_cases hmm : matched = []
  · rw [if_pos hmm] at h
    simp only [Prod.mk.injEq, Except.ok.injEq] at h
    obtain ⟨h1, -, -⟩ := h
    subst h1
    exact ⟨by simp [allZeroHistogram], by simp [allZeroHistogram]⟩
  · rw [if_neg hmm] at h
    split at h
    · simp at h
    rename_i hist3 k5 hfill
    obtain ⟨hflen, hfnn⟩ := fillHistogram_ok_shape rand k4 matched
      vopts.histogramSize vopts.value vopts.credit hcne hcpos hv hist3 k5
      hfill
    by_cases hse : currentEpoch = earliestEpoch
    · rw [if_pos hse] at h
      by_cases hl1 : hist3.sum > vopts.value
      · rw [if_pos hl1] at h
        simp at h
      · rw [if_neg hl1] at h
        simp only [Prod.mk.injEq, Except.ok.injEq] at h
        obtain ⟨h1, -, -⟩ := h
        by_cases hbud : (deductPrivacyBudget d top currentEpoch
            vopts.epsilon (vopts.value : ℚ) vopts.maxValue
            (some ((hist3.sum : ℤ) : ℚ)) st4.privacyBudgetStore).1 = true
        · rw [if_pos hbud] at h1
          subst h1
          exact ⟨hflen, hfnn⟩
        · rw [if_neg hbud] at h1
          subst h1
          exact ⟨by simp [allZeroHistogram], by simp [allZeroHistogram]⟩
    · rw [if_neg hse] at h
      simp only [Prod.mk.injEq, Except.ok.injEq] at h
      obtain ⟨h1, -, -⟩ := h
      subst h1
      exact ⟨hflen, hfnn⟩

lemma doAttribution_hist (d : Delegate) (rand : ℕ → ℚ) (top : String)
    (inter : Option String) (now : ℚ) (vopts : ValidatedConversionOptions)
    (st : Backend) (k : ℕ)
    (hcne : vopts.credit ≠ []) (hcpos : ∀ c ∈ vopts.credit, 0 < c)
    (hv : 0 < vopts.value) (hr : ∀ i, 0 ≤ rand i ∧ rand i < 1)
    (hist : List ℤ) (st2 : Backend) (k2 : ℕ)
    (h : doAttributionAndFillHistogram d rand top inter now vopts st k =
      (.ok hist, st2, k2)) :
    hist.length = vopts.histogramSize ∧ (∀ x ∈ hist, 0 ≤ x) ∧
    hist.sum ≤ vopts.value ∧
    ((∀ i ∈ st.impressions, 0 ≤ i.histogramIndex ∧
        i.histogramIndex < (vopts.histogramSize : ℤ)) →
      hist.sum = 0 ∨ hist.sum = vopts.value) := by
  unfold doAttributionAndFillHistogram at h
  split at h
  · simp at h
  rename_i currentEpoch st1 k1 hg1
  have himps1 : st1.impressions = st.impressions := by
    have hx := getCurrentEpoch_extend d rand top now st k
    rw [hg1] at hx
    exact hx.2.1
  split at h
  · simp at h
  rename_i startEpoch st2a k2a hg2
  have himps2 : st2a.impressions = st.impressions := by
    have hx := getStartEpoch_extend d rand top now st1 k1
    rw [hg2] at hx
    rw [hx.2.1, himps1]
  split at h
  · simp at h
  rename_i earliestEpoch st3 k3 hg3
  have himps3 : st3.impressions = st.impressions := by
    have hx := getCurrentEpoch_extend d rand top (now - vopts.lookback)
      st2a k2a
    rw [hg3] at hx
    rw [hx.2.1, himps2]
  dsimp only at h
  rcases hg4 : (if currentEpoch = earliestEpoch then
      commonMatchingLogic d rand top inter currentEpoch now vopts st3 k3
    else
      multiEpochLoop d rand top inter now vopts
        (epochRange startEpoch currentEpoch) [] st3 k3)
    with ⟨r4, st4, k4⟩
  rw [hg4] at h
  cases r4 with
  | error e => simp at h
  | ok matched =>
  have hsub : ∀ i ∈ matched, i ∈ st.impressions := by
    by_cases hse : currentEpoch = earliestEpoch
    · rw [if_pos hse] at hg4
      unfold commonMatchingLogic at hg4
      intro i hi
      have := matchImpressions_ok_subset d rand top inter currentEpoch now
        vopts st3.impressions st3 k3 matched st4 k4 hg4 i hi
      rw [himps3] at this
      exact this
    · rw [if_neg hse] at hg4
      intro i hi
      have := multiEpochLoop_ok_subset d rand top inter now vopts
        (epochRange startEpoch currentEpoch) [] st3 k3 matched st4 k4
        hg4 i hi
      rcases this with habs | hok2
      · simp at habs
      · rw [himps3] at hok2
        exact hok2
  dsimp only at h
  by_cases hmm : matched = []
  · rw [if_pos hmm] at h
    simp only [Prod.mk.injEq, Except.ok.injEq] at h
    obtain ⟨h1, -, -⟩ := h
    subst h1
    refine ⟨by simp [allZeroHistogram], by simp [allZeroHistogram], ?_, ?_⟩
    · have : (allZeroHistogram vopts.histogramSize).sum = 0 := by
        simp [allZeroHistogram]
      rw [this]
      omega
    · intro hin
      left
      simp [allZeroHistogram]
  · rw [if_neg hmm] at h
    obtain ⟨hist3, k5, hfill, hflen, hfnn, hfle, hfeq⟩ :=
      fillHistogram_ok rand k4 matched vopts.histogramSize vopts.value
        vopts.credit hmm hcne hcpos hv hr
    rw [hfill] at h
    dsimp only at h
    by_cases hse : currentEpoch = earliestEpoch
    · rw [if_pos hse] at h
      by_cases hl1 : hist3.sum > vopts.value
      · rw [if_pos hl1] at h
        simp at h
      · rw [if_neg hl1] at h
        simp only [Prod.mk.injEq, Except.ok.injEq] at h
        obtain ⟨h1, -, -⟩ := h
        by_cases hbud : (deductPrivacyBudget d top currentEpoch
            vopts.epsilon (vopts.value : ℚ) vopts.maxValue
            (some ((hist3.sum : ℤ) : ℚ)) st4.privacyBudgetStore).1 = true
        · rw [if_pos hbud] at h1
          subst h1
          refine ⟨hflen, hfnn, hfle, ?_⟩
          intro hin
          right
          refine hfeq ?_
          intro i hi
          exact hin i (hsub i hi)
        · rw [if_neg hbud] at h1
          subst h1
          refine ⟨by simp [allZeroHistogram], by simp [allZeroHistogram],
            ?_, ?_⟩
          · have hzz : (allZeroHistogram vopts.histogramSize).sum = 0 := by
              simp [allZeroHistogram]
            rw [hzz]
            omega
          · intro hin
            left
            simp [allZeroHistogram]
    · rw [if_neg hse] at h
      simp only [Prod.mk.injEq, Except.ok.injEq] at h
      obtain ⟨h1, -, -⟩ := h
      subst h1
      refine ⟨hflen, hfnn, hfle, ?_⟩
      intro hin
      right
      refine hfeq ?_
      intro i hi
      exact hin i (hsub i hi)

/-! ### Claim C1: shape and sum of the emitted histogram -/

/-- An impression with histogram index 0, in range for a size-3 histogram. -/
def c1ImpA : Impression where
  matchValue := 0
  impressionSite := "a.example"
  intermediarySite := none
  conversionSites := []
  conversionCallers := []
  timestamp := 999998
  lifetime := 86400
  histogramIndex := 0
  priority := 0

/-- An impression with histogram index 1, in range for a size-3 histogram. -/
def c1ImpB : Impression where
  matchValue := 0
  impressionSite := "a.example"
  intermediarySite := none
  conversionSites := []
  conversionCallers := []
  timestamp := 999999
  lifetime := 86400
  histogramIndex := 5
  priority := 0

/-- A backend holding two matchable impressions whose indices are in range
for a size-3 histogram. -/
def c1State : Backend where
  enabled := true
  impressions := [c1ImpA, { c1ImpB with histogramIndex := 1 }]
  epochStartStore := []
  privacyBudgetStore := []
  lastBrowsingHistoryClear := none

/-- A backend holding a matchable impression whose histogram index 5 is out
of range for a size-3 histogram. -/
def c1BadState : Backend where
  enabled := true
  impressions := [c1ImpA, c1ImpB]
  epochStartStore := []
  privacyBudgetStore := []
  lastBrowsingHistoryClear := none

/-- The backend state after the C1 witness conversion: a lazily created
epoch origin for the conversion site and one budget entry with the
remaining budget. -/
def c1Post : Backend where
  enabled := true
  impressions := [c1ImpA, { c1ImpB with histogramIndex := 1 }]
  epochStartStore := [("b.example", 697600)]
  privacyBudgetStore := [{ epoch := 0, site := "b.example", value := 501000 }]
  lastBrowsingHistoryClear := none

set_option maxRecDepth 10000 in
/-- Claim C1, counterexample to the claim as frozen: a conversion over a
store holding a matched impression whose histogram index 5 is outside the
requested histogram of size 3 returns the histogram [5, 0, 0] — the credit
of the out-of-range impression is dropped by the filling loop — whose sum 5
is neither 0 nor the conversion value 10. -/
theorem measureConversion_histogram_sum_cex :
    (measureConversion sampleDelegate halfRand 1000000 "b.example" none
      sampleConversionOptions c1BadState).1 = .ok [5, 0, 0] ∧
    ¬ (((([5, 0, 0] : List ℤ).sum : ℚ) = 0 ∨
        (([5, 0, 0] : List ℤ).sum : ℚ) = sampleConversionOptions.value)) := by
  exact ⟨by decide, by decide⟩

/-- Claim C1 (amended: the sum dichotomy needs every stored impression's
histogram index inside the requested histogram — the source silently drops
the credit of an out-of-range index — and random draws inside the unit
interval, the delegate contract): for every `measureConversion` call that
returns a histogram, the histogram has length exactly the requested
`histogramSize` and every entry is a non-negative integer; and provided
every stored impression's histogram index lies in `[0, histogram_size)`
and the rng draws lie in `[0, 1)`, the entries sum to 0 or to exactly the
conversion value. -/
theorem measureConversion_histogram_props (d : Delegate) (rand : ℕ → ℚ)
    (now : ℚ) (top : String) (inter : Option String) (o : ConversionOptions)
    (st : Backend) (hist : List ℤ) (st2 : Backend)
    (h : measureConversion d rand now top inter o st = (.ok hist, st2)) :
    (hist.length : ℚ) = o.histogramSize ∧ (∀ x ∈ hist, 0 ≤ x) ∧
    ((∀ i, 0 ≤ rand i ∧ rand i < 1) →
      (∀ imp ∈ st.impressions, 0 ≤ imp.histogramIndex ∧
        (imp.histogramIndex : ℚ) < o.histogramSize) →
      ((hist.sum : ℚ) = 0 ∨ (hist.sum : ℚ) = o.value)) := by
  unfold measureConversion at h
  dsimp only at h
  split at h
  · simp at h
  rename_i vopts hval
  obtain ⟨hcr, hcne, hcpos, hv, hvcast, hs1, hscast⟩ :=
    validateConversionOptions_ok_facts d o vopts hval
  have hcne2 : vopts.credit ≠ [] := by rw [hcr]; exact hcne
  have hcpos2 : ∀ c ∈ vopts.credit, 0 < c := by rw [hcr]; exact hcpos
  by_cases hen : st.enabled = true
  · rw [if_pos hen] at h
    split at h
    · simp at h
    rename_i report st1 k1 hdo
    simp only [Prod.mk.injEq, Except.ok.injEq] at h
    obtain ⟨h1, -⟩ := h
    subst h1
    obtain ⟨hslen, hsnn⟩ := doAttribution_shape d rand (parseSite top)
      (inter.map parseSite) now vopts st 0 hcne2 hcpos2 hv report st1 k1 hdo
    refine ⟨?_, hsnn, ?_⟩
    · rw [hslen]
      exact hscast
    · intro hr hidx
      have hidx2 : ∀ imp ∈ st.impressions, 0 ≤ imp.histogramIndex ∧
          imp.histogramIndex < (vopts.histogramSize : ℤ) := by
        intro imp hmem
        obtain ⟨ha, hb⟩ := hidx imp hmem
        refine ⟨ha, ?_⟩
        rw [← hscast] at hb
        exact_mod_cast hb
      obtain ⟨-, -, -, hcond⟩ := doAttribution_hist d rand
        (parseSite top) (inter.map parseSite) now vopts st 0 hcne2 hcpos2 hv
        hr report st1 k1 hdo
      rcases hcond hidx2 with h0 | hv2
      · left
        exact_mod_cast h0
      · right
        rw [← hvcast]
        exact_mod_cast hv2
  · rw [if_neg hen] at h
    simp only [Prod.mk.injEq, Except.ok.injEq] at h
    obtain ⟨h1, -⟩ := h
    subst h1
    refine ⟨?_, by simp [allZeroHistogram], ?_⟩
    · rw [show (allZeroHistogram vopts.histogramSize).length =
        vopts.histogramSize from by simp [allZeroHistogram]]
      exact hscast
    · intro hr hidx
      left
      simp [allZeroHistogram]

set_option maxRecDepth 10000 in
/-- Witness for the amended claim C1: the same conversion over a store
whose impressions carry the in-range indices 0 and 1 yields [5, 5, 0],
which has the requested length 3 and non-negative entries, and — the
in-range and rng provisos holding here — sum exactly the conversion
value 10. -/
theorem measureConversion_histogram_props_witness :
    measureConversion sampleDelegate halfRand 1000000 "b.example" none
      sampleConversionOptions c1State = (.ok [5, 5, 0], c1Post) ∧
    (∀ i, 0 ≤ halfRand i ∧ halfRand i < 1) ∧
    (∀ imp ∈ c1State.impressions, 0 ≤ imp.histogramIndex ∧
      (imp.histogramIndex : ℚ) < sampleConversionOptions.histogramSize) ∧
    ((([5, 5, 0] : List ℤ).length : ℚ) =
        sampleConversionOptions.histogramSize ∧
      (∀ x ∈ ([5, 5, 0] : List ℤ), 0 ≤ x) ∧
      ((([5, 5, 0] : List ℤ).sum : ℚ) = 0 ∨
        (([5, 5, 0] : List ℤ).sum : ℚ) = sampleConversionOptions.value)) := by
  refine ⟨by decide, halfRand_valid, by decide, ?_⟩
  obtain ⟨h1, h2, h3⟩ := measureConversion_histogram_props sampleDelegate
    halfRand 1000000 "b.example" none sampleConversionOptions c1State
    [5, 5, 0] c1Post (by decide)
  exact ⟨h1, h2, h3 halfRand_valid (by decide)⟩

/-! ### Claim C5: clearState(sites, false) zeroes budgets -/

/-- The epoch index of an instant for a site whose epoch origin is already
stored: the pure view of `#getCurrentEpoch` on such a state. -/
def epochAt (d : Delegate) (store : List (String × ℚ)) (site : String)
    (t : ℚ) : ℤ :=
  match lookupStart store site with
  | some start => jsFloor ((t - start) / d.privacyBudgetEpoch)
  | none => 0

/-- The pure view of `#getStartEpoch` on a state whose epoch origin for the
site is already stored. -/
def startEpochAt (d : Delegate) (store : List (String × ℚ))
    (clear : Option ℚ) (site : String) (now : ℚ) : ℤ :=
  match clear with
  | none => epochAt d store site (now - days d.maxLookbackDays)
  | some c =>
    if epochAt d store site c + 2 >
        epochAt d store site (now - days d.maxLookbackDays) then
      epochAt d store site c + 2
    else epochAt d store site (now - days d.maxLookbackDays)

lemma lookupStart_append_self (store : List (String × ℚ)) (site : String)
    (s : ℚ) (h : lookupStart store site = none) :
    lookupStart (store ++ [(site, s)]) site = some s := by
  unfold lookupStart at h ⊢
  rw [List.find?_append]
  cases hf : List.find? (fun e => decide (e.1 = site)) store with
  | some x => rw [hf] at h; simp at h
  | none => simp [List.find?]

lemma lookupStart_append_ext (store ext : List (String × ℚ)) (site : String)
    (o : ℚ) (h : lookupStart store site = some o) :
    lookupStart (store ++ ext) site = some o := by
  unfold lookupStart at h ⊢
  rw [List.find?_append]
  cases hf : List.find? (fun e => decide (e.1 = site)) store with
  | none => rw [hf] at h; simp at h
  | some x => rw [hf] at h; simpa using h

lemma epochAt_ext (d : Delegate) (store ext : List (String × ℚ))
    (site : String) (o : ℚ) (h : lookupStart store site = some o) (t : ℚ) :
    epochAt d (store ++ ext) site t = epochAt d store site t := by
  unfold epochAt
  rw [h, lookupStart_append_ext store ext site o h]

lemma startEpochAt_ext (d : Delegate) (store ext : List (String × ℚ))
    (clear : Option ℚ) (site : String) (o : ℚ)
    (h : lookupStart store site = some o) (now : ℚ) :
    startEpochAt d (store ++ ext) clear site now =
      startEpochAt d store clear site now := by
  cases clear with
  | none =>
    unfold startEpochAt
    exact epochAt_ext d store ext site o h _
  | some c =>
    unfold startEpochAt
    dsimp only
    rw [epochAt_ext d store ext site o h, epochAt_ext d store ext site o h]

lemma getCurrentEpoch_char (d : Delegate) (rand : ℕ → ℚ) (site : String)
    (t : ℚ) (st : Backend) (k : ℕ) (e : ℤ) (st1 : Backend) (k1 : ℕ)
    (h : getCurrentEpoch d rand site t st k = (.ok e, st1, k1)) :
    EpochExtend st st1 ∧
    (∃ o, lookupStart st1.epochStartStore site = some o) ∧
    e = epochAt d st1.epochStartStore site t := by
  unfold getCurrentEpoch at h
  split at h
  · rename_i o hl
    simp only [Prod.mk.injEq, Except.ok.injEq] at h
    obtain ⟨he, hst, -⟩ := h
    subst hst
    refine ⟨epochExtend_refl st, ⟨o, hl⟩, ?_⟩
    unfold epochAt
    rw [hl, ← he]
  · rename_i hl
    split at h
    · simp at h
    rename_i p hc
    dsimp only at h
    simp only [Prod.mk.injEq, Except.ok.injEq] at h
    obtain ⟨he, hst, -⟩ := h
    subst hst
    have hl1 := lookupStart_append_self st.epochStartStore site
      (t - p * d.privacyBudgetEpoch) hl
    refine ⟨⟨rfl, rfl, rfl, rfl, _, rfl⟩, ⟨_, hl1⟩, ?_⟩
    unfold epochAt
    dsimp only
    rw [hl1, ← he]

lemma getStartEpoch_char (d : Delegate) (rand : ℕ → ℚ) (site : String)
    (now : ℚ) (st : Backend) (k : ℕ) (se : ℤ) (st1 : Backend) (k1 : ℕ)
    (h : getStartEpoch d rand site now st k = (.ok se, st1, k1)) :
    EpochExtend st st1 ∧
    (∃ o, lookupStart st1.epochStartStore site = some o) ∧
    se = startEpochAt d st1.epochStartStore st.lastBrowsingHistoryClear
      site now := by
  unfold getStartEpoch at h
  split at h
  · simp at h
  rename_i e1 st1' k1' hg1
  obtain ⟨hx1, ⟨o, ho⟩, he1⟩ := getCurrentEpoch_char d rand site
    (now - days d.maxLookbackDays) st k e1 st1' k1' hg1
  have hlc : st1'.lastBrowsingHistoryClear = st.lastBrowsingHistoryClear :=
    hx1.2.2.2.1
  split at h
  · rename_i hnone
    simp only [Prod.mk.injEq, Except.ok.injEq] at h
    obtain ⟨hse, hst, -⟩ := h
    subst hst
    refine ⟨hx1, ⟨o, ho⟩, ?_⟩
    rw [← hlc, hnone]
    unfold startEpochAt
    dsimp only
    rw [← hse, he1]
  · rename_i c hsome
    rw [getCurrentEpoch_present d rand site c st1' k1' o ho] at h
    dsimp only at h
    have hce : epochAt d st1'.epochStartStore site c =
        jsFloor ((c - o) / d.privacyBudgetEpoch) := by
      unfold epochAt
      rw [ho]
    split at h
    · rename_i hcond
      simp only [Prod.mk.injEq, Except.ok.injEq] at h
      obtain ⟨hse, hst, -⟩ := h
      subst hst
      refine ⟨hx1, ⟨o, ho⟩, ?_⟩
      rw [← hlc, hsome]
      unfold startEpochAt
      dsimp only
      rw [hce, ← he1, if_pos hcond, ← hse]
    · rename_i hcond
      simp only [Prod.mk.injEq, Except.ok.injEq] at h
      obtain ⟨hse, hst, -⟩ := h
      subst hst
      refine ⟨hx1, ⟨o, ho⟩, ?_⟩
      rw [← hlc, hsome]
      unfold startEpochAt
      dsimp only
      rw [hce, ← he1, if_neg hcond, ← hse]

lemma mem_epochRange (lo hi e : ℤ) :
    e ∈ epochRange lo hi ↔ lo ≤ e ∧ e ≤ hi := by
  unfold epochRange
  constructor
  · intro h
    obtain ⟨n, hn, he⟩ := List.mem_map.mp h
    rw [List.mem_range] at hn
    have he2 : lo + (n : ℤ) = e := he
    omega
  · rintro ⟨h1, h2⟩
    refine List.mem_map.mpr ⟨(e - lo).toNat, ?_, ?_⟩
    · rw [List.mem_range]
      omega
    · show lo + ((e - lo).toNat : ℤ) = e
      omega

lemma setAdd_nodup (acc : List String) (s : String) (h : acc.Nodup) :
    (setAdd acc s).Nodup := by
  unfold setAdd
  by_cases hs : s ∈ acc
  · rw [if_pos hs]
    exact h
  · rw [if_neg hs]
    simp [List.nodup_append, h, hs]

lemma foldl_setAdd_nodup (l : List String) :
    ∀ acc : List String, acc.Nodup →
      (l.foldl (fun acc s => setAdd acc (parseSite s)) acc).Nodup := by
  induction l with
  | nil => intro acc h; exact h
  | cons x xs ih =>
    intro acc h
    exact ih _ (setAdd_nodup _ _ h)

lemma parseSites_nodup (l : List String) : (parseSites l).Nodup :=
  foldl_setAdd_nodup l [] List.nodup_nil

lemma zeroOneBudget_self (site : String) (e : ℤ)
    (store : List PrivacyBudgetStoreEntry) :
    budgetFind (zeroOneBudget site e store) site e = some 0 := by
  unfold zeroOneBudget
  by_cases h : (budgetFind store site e).isSome
  · rw [if_pos h]
    exact budgetFind_setFirst_eq store site e 0 h
  · rw [if_neg h]
    have hn : budgetFind store site e = none := by
      cases hx : budgetFind store site e
      · rfl
      · rw [hx] at h; simp at h
    rw [budgetFind_append_of_none store _ site e hn]
    simp

lemma zeroOneBudget_other (site' : String) (e' : ℤ) (site : String) (e : ℤ)
    (store : List PrivacyBudgetStoreEntry) (h : ¬(site = site' ∧ e = e')) :
    budgetFind (zeroOneBudget site' e' store) site e =
      budgetFind store site e := by
  unfold zeroOneBudget
  by_cases hs : (budgetFind store site' e').isSome
  · rw [if_pos hs]
    exact budgetFind_setFirst_ne store site' e' 0 site e h
  · rw [if_neg hs]
    cases hx : budgetFind store site e with
    | some v => exact budgetFind_append_of_some store _ site e v hx
    | none =>
      rw [budgetFind_append_of_none store _ site e hx]
      have hne : ¬((⟨e', site', 0⟩ : PrivacyBudgetStoreEntry).epoch = e ∧
          (⟨e', site', 0⟩ : PrivacyBudgetStoreEntry).site = site) := by
        rintro ⟨h1, h2⟩
        exact h ⟨h2.symm, h1.symm⟩
      rw [if_neg hne]

lemma zeroOneBudget_keeps_zero (site' : String) (e' : ℤ) (site : String)
    (e : ℤ) (store : List PrivacyBudgetStoreEntry)
    (h : budgetFind store site e = some 0) :
    budgetFind (zeroOneBudget site' e' store) site e = some 0 := by
  by_cases hk : site = site' ∧ e = e'
  · rw [hk.1, hk.2]
    exact zeroOneBudget_self site' e' store
  · rw [zeroOneBudget_other site' e' site e store hk]
    exact h

lemma zeroEpochsLoop_keeps_zero (site' : String) (epochs : List ℤ) :
    ∀ (store : List PrivacyBudgetStoreEntry) (site : String) (e : ℤ),
      budgetFind store site e = some 0 →
      budgetFind (zeroEpochsLoop site' epochs store) site e = some 0 := by
  induction epochs with
  | nil => intro store site e h; exact h
  | cons a rest ih =>
    intro store site e h
    unfold zeroEpochsLoop
    exact ih _ site e (zeroOneBudget_keeps_zero site' a site e store h)

lemma zeroEpochsLoop_self_mem (site : String) (epochs : List ℤ) :
    ∀ (store : List PrivacyBudgetStoreEntry) (e : ℤ), e ∈ epochs →
      budgetFind (zeroEpochsLoop site epochs store) site e = some 0 := by
  induction epochs with
  | nil => intro store e h; simp at h
  | cons a rest ih =>
    intro store e h
    unfold zeroEpochsLoop
    rcases List.mem_cons.mp h with h1 | h2
    · subst h1
      exact zeroEpochsLoop_keeps_zero site rest _ site e
        (zeroOneBudget_self site e store)
    · exact ih _ e h2

lemma zeroEpochsLoop_other (site' : String) (epochs : List ℤ) :
    ∀ (store : List PrivacyBudgetStoreEntry) (site : String) (e : ℤ),
      site ≠ site' →
      budgetFind (zeroEpochsLoop site' epochs store) site e =
        budgetFind store site e := by
  induction epochs with
  | nil => intro store site e h; rfl
  | cons a rest ih =>
    intro store site e h
    unfold zeroEpochsLoop
    rw [ih _ site e h, zeroOneBudget_other site' a site e store
      (fun hc => h hc.1)]

lemma zeroBudgetSitesLoop_props (d : Delegate) (rand : ℕ → ℚ) (now : ℚ) :
    ∀ (sites : List String) (st : Backend) (k : ℕ) (st2 : Backend) (k2 : ℕ),
    zeroBudgetSitesLoop d rand now sites st k = (.ok (), st2, k2) →
    st2.enabled = st.enabled ∧ st2.impressions = st.impressions ∧
    st2.lastBrowsingHistoryClear = st.lastBrowsingHistoryClear ∧
    (∃ ext, st2.epochStartStore = st.epochStartStore ++ ext) ∧
    (∀ site, site ∉ sites → ∀ e : ℤ,
      budgetFind st2.privacyBudgetStore site e =
        budgetFind st.privacyBudgetStore site e) ∧
    (sites.Nodup → ∀ site ∈ sites, ∀ e : ℤ,
      startEpochAt d st2.epochStartStore st.lastBrowsingHistoryClear site
        now ≤ e →
      e ≤ epochAt d st2.epochStartStore site now →
      budgetFind st2.privacyBudgetStore site e = some 0) := by
  intro sites
  induction sites with
  | nil =>
    intro st k st2 k2 h
    unfold zeroBudgetSitesLoop at h
    simp only [Prod.mk.injEq] at h
    obtain ⟨-, hst, -⟩ := h
    subst hst
    exact ⟨rfl, rfl, rfl, ⟨[], by simp⟩, fun _ _ _ => rfl,
      by intro _ site hs; simp at hs⟩
  | cons s rest ih =>
    intro st k st2 k2 h
    unfold zeroBudgetSitesLoop at h
    split at h
    · simp at h
    rename_i se st1 k1 hgs
    split at h
    · simp at h
    rename_i ce st2a k2a hgc
    obtain ⟨hx1, ⟨o, ho⟩, hse⟩ :=
      getStartEpoch_char d rand s now st k se st1 k1 hgs
    obtain ⟨hx2, ⟨o2, ho2⟩, hce⟩ :=
      getCurrentEpoch_char d rand s now st1 k1 ce st2a k2a hgc
    obtain ⟨ihe, ihi, ihl, ⟨ext2, ihs⟩, ihp, ihz⟩ := ih _ _ _ _ h
    obtain ⟨l2, hl2⟩ := hx2.2.2.2.2
    obtain ⟨l1, hl1⟩ := hx1.2.2.2.2
    have hmidstore : st2.epochStartStore = st2a.epochStartStore ++ ext2 := ihs
    have hos2 : lookupStart st2a.epochStartStore s = some o := by
      rw [hl2]
      exact lookupStart_append_ext _ _ _ _ ho
    have hos3 : lookupStart st2.epochStartStore s = some o := by
      rw [hmidstore]
      exact lookupStart_append_ext _ _ _ _ hos2
    have hseq : startEpochAt d st2.epochStartStore
        st.lastBrowsingHistoryClear s now = se := by
      rw [hmidstore, startEpochAt_ext d _ ext2 _ s o hos2, hl2,
        startEpochAt_ext d _ l2 _ s o ho]
      exact hse.symm
    have hceq : epochAt d st2.epochStartStore s now = ce := by
      rw [hmidstore, epochAt_ext d _ ext2 s o hos2]
      exact hce.symm
    refine ⟨?_, ?_, ?_, ?_, ?_, ?_⟩
    · rw [ihe]
      exact (hx2.1).trans hx1.1
    · rw [ihi]
      exact (hx2.2.1).trans hx1.2.1
    · rw [ihl]
      exact (hx2.2.2.2.1).trans hx1.2.2.2.1
    · refine ⟨l1 ++ (l2 ++ ext2), ?_⟩
      rw [hmidstore, hl2, hl1]
      simp [List.append_assoc]
    · intro site hnot e
      have hnots : site ≠ s := fun hc => hnot (hc ▸ List.mem_cons_self s rest)
      have hnotr : site ∉ rest := fun hc => hnot (List.mem_cons_of_mem s hc)
      rw [ihp site hnotr e]
      dsimp only
      rw [zeroEpochsLoop_other s _ _ site e hnots]
      rw [hx2.2.2.1, hx1.2.2.1]
    · intro hnd site hmem e hlo hhi
      obtain ⟨hsnr, hndr⟩ := List.nodup_cons.mp hnd
      rcases List.mem_cons.mp hmem with rfl | hmem2
      · rw [ihp site hsnr e]
        dsimp only
        refine zeroEpochsLoop_self_mem site _ _ e ?_
        rw [mem_epochRange]
        constructor
        · rw [← hseq]
          exact hlo
        · rw [← hceq]
          exact hhi
      · have hmlc : ({ st2a with privacyBudgetStore :=
            (zeroEpochsLoop s (epochRange se ce) st2a.privacyBudgetStore) } :
              Backend).lastBrowsingHistoryClear =
            st.lastBrowsingHistoryClear := by
          dsimp only
          exact (hx2.2.2.2.1).trans hx1.2.2.2.1
        refine ihz hndr site hmem2 e ?_ hhi
        rw [hmlc]
        exact hlo

/-- Claim C5 (amended: the error for an empty site list is a RangeError,
and the epoch origins are not left unchanged — the per-site epoch
computations lazily create a missing origin, so the origin store may be
extended, existing entries staying intact): `clearState(sites, false)` on
an empty site list fails with a range error leaving the state untouched;
when it succeeds, the impression store, the enabled flag and
`lastBrowsingHistoryClear` are unchanged, the epoch origin store is only
extended, and for each listed site the budget entry of every epoch from
the site's start epoch through its current epoch is zero (created if it
was absent). -/
theorem clearState_budget_zeroing (d : Delegate) (rand : ℕ → ℚ) (now : ℚ)
    (sites : List String) (st : Backend) :
    clearState d rand now [] false st = (.error .rangeError, st) ∧
    (∀ st2, clearState d rand now sites false st = (.ok (), st2) →
      st2.enabled = st.enabled ∧ st2.impressions = st.impressions ∧
      st2.lastBrowsingHistoryClear = st.lastBrowsingHistoryClear ∧
      (∃ ext, st2.epochStartStore = st.epochStartStore ++ ext) ∧
      (∀ site ∈ parseSites sites, ∀ e : ℤ,
        startEpochAt d st2.epochStartStore st.lastBrowsingHistoryClear
          site now ≤ e →
        e ≤ epochAt d st2.epochStartStore site now →
        budgetFind st2.privacyBudgetStore site e = some 0)) := by
  constructor
  · rfl
  · intro st2 h
    unfold clearState at h
    dsimp only at h
    rw [if_pos (by simp)] at h
    unfold zeroBudgetForSites at h
    by_cases hps : parseSites sites = []
    · rw [if_pos hps] at h
      simp at h
    rw [if_neg hps] at h
    dsimp only at h
    rcases hl : zeroBudgetSitesLoop d rand now (parseSites sites) st 0
      with ⟨r1, st2', k2⟩
    rw [hl] at h
    simp only [Prod.mk.injEq] at h
    obtain ⟨h1, h2⟩ := h
    subst h2
    rw [h1] at hl
    obtain ⟨pe, pi, pl, pext, -, pz⟩ :=
      zeroBudgetSitesLoop_props d rand now (parseSites sites) st 0 st2' k2 hl
    exact ⟨pe, pi, pl, pext, pz (parseSites_nodup sites)⟩

/-- Claim C5, counterexample to the claim as frozen: on a fresh backend,
`clearState(["a.example"], false)` succeeds but does not leave the
per-site epoch origins unchanged — computing the site's epochs lazily
samples and records an epoch origin for the site. -/
theorem clearState_origin_creation_cex :
    (clearState sampleDelegate halfRand 1000000 ["a.example"] false
      emptyBackend).1 = .ok () ∧
    (clearState sampleDelegate halfRand 1000000 ["a.example"] false
      emptyBackend).2.epochStartStore ≠ emptyBackend.epochStartStore := by
  exact ⟨by decide, by decide⟩

/-- The backend state after the C5 witness call: the lazily created origin
of the listed site and its five zeroed budget epochs. -/
def c5Post : Backend where
  enabled := true
  impressions := []
  epochStartStore := [("a.example", -1894400)]
  privacyBudgetStore := [⟨0, "a.example", 0⟩, ⟨1, "a.example", 0⟩,
    ⟨2, "a.example", 0⟩, ⟨3, "a.example", 0⟩, ⟨4, "a.example", 0⟩]
  lastBrowsingHistoryClear := none

/-- Witness for the amended claim C5 at the concrete input: clearing the
budgets of "a.example" on a fresh backend at instant 1000000. -/
theorem clearState_budget_zeroing_witness :
    clearState sampleDelegate halfRand 1000000 ["a.example"] false
      emptyBackend = (.ok (), c5Post) ∧
    (c5Post.enabled = emptyBackend.enabled ∧
      c5Post.impressions = emptyBackend.impressions ∧
      c5Post.lastBrowsingHistoryClear =
        emptyBackend.lastBrowsingHistoryClear ∧
      (∃ ext, c5Post.epochStartStore =
        emptyBackend.epochStartStore ++ ext) ∧
      (∀ site ∈ parseSites ["a.example"], ∀ e : ℤ,
        startEpochAt sampleDelegate c5Post.epochStartStore
          emptyBackend.lastBrowsingHistoryClear site 1000000 ≤ e →
        e ≤ epochAt sampleDelegate c5Post.epochStartStore site 1000000 →
        budgetFind c5Post.privacyBudgetStore site e = some 0)) :=
  ⟨by decide, (clearState_budget_zeroing sampleDelegate halfRand 1000000
    ["a.example"] emptyBackend).2 c5Post (by decide)⟩

end Attribution
